import Mathlib

/-!
# S03_VECT vectorization engine: a shallow embedding

This file models the hardened vectorization engine of `S03_VECT.py`:
text normalization and content-hash keys, the embedding cache and the
dead-letter queue backed by MVM.db, the circuit breaker, the retry loop of
`generate_embedding`, and the per-batch orchestration of `vectorize_batch`.

Modelling conventions:
* Text is `List Char`; Python slicing and `str.split()` become list operations.
* SQLite tables with a PRIMARY KEY are association lists from key to row.
* SHA-256 keys are modelled by the normalized text itself: the hash is treated
  as injective, so distinct preimages get distinct keys.
* Vector payloads are `List Int`; the engine never computes with the float
  values, it only transports and stores them.
* Wall-clock effects (token-bucket waits, cooling pauses, backoff sleeps) and
  I/O actions (inference calls, cache reads and writes, DLQ writes) are
  recorded in an event trace.
* The draw of `random.uniform(0, d)` is modelled by an environment-provided
  rational in `[0, 1]` scaled by `d`.
* Fallible SQLite operations are modelled by environment flags: a `false` flag
  makes the corresponding storage operation fail. The cache read, cache write,
  and DLQ write are each wrapped in try/except in the source, so for those the
  model skips the write or treats the read as a miss, mirroring the except
  branches. The table-creation step `_ensure_cache_tables` at the top of
  `generate_embedding` is NOT guarded at its call site, so its failure
  propagates out of the call: `generate_embedding_call` models the full source
  function with that error channel, and `generate_embedding` is its body after
  the first statement.
-/

namespace S03

/-- Whitespace characters recognised by Python `str.split` / `str.strip`
(the ASCII range, which covers the source's inputs). -/
def isSpaceChar (c : Char) : Bool :=
  c = ' ' || c = '\t' || c = '\n' || c = '\r' || c = Char.ofNat 11 || c = Char.ofNat 12

/-- Python `str.split()` with no separator: the maximal runs of non-whitespace
characters, with empty runs discarded. -/
def words : List Char → List (List Char)
  | [] => []
  | c :: cs =>
    if isSpaceChar c then words cs
    else
      match cs, words cs with
      | [], _ => [[c]]
      | d :: _, ws =>
        if isSpaceChar d then [c] :: ws
        else
          match ws with
          | [] => [[c]]
          | w :: rest => (c :: w) :: rest

/-- Extend the first word of a word list with a leading character (the shape
of the `words` recursion when two non-space characters are adjacent). -/
def consWord (c : Char) : List (List Char) → List (List Char)
  | [] => [[c]]
  | w :: ws => (c :: w) :: ws

/-- Python `" ".join` over a list of words. -/
def joinWords : List (List Char) → List Char
  | [] => []
  | [w] => w
  | w :: ws => w ++ ' ' :: joinWords ws

/-- Leading-whitespace removal (the left half of Python `str.strip()`). -/
def lstrip (s : List Char) : List Char := s.dropWhile isSpaceChar

/-- Trailing-whitespace removal (the right half of Python `str.strip()`). -/
def rstrip : List Char → List Char
  | [] => []
  | c :: cs =>
    match rstrip cs with
    | [] => if isSpaceChar c then [] else [c]
    | r => c :: r

/-- Python `str.strip()`. -/
def pyStrip (s : List Char) : List Char := rstrip (lstrip s)

/-- Python `_norm_text(s, max_chars=8000)`: collapse whitespace (strip then split then
join with single spaces) and truncate to `max_chars` characters; the empty
input short-circuits to the empty string. -/
def _norm_text (s : List Char) (max_chars : Nat) : List Char :=
  if s = [] then []
  else (joinWords (words (pyStrip s))).take max_chars

/-- The function `_norm_text` at its default `max_chars = 8000`, as every call site in the
source uses it. -/
def normText (s : List Char) : List Char := _norm_text s 8000

/-- Python `_hash_key(s)`: SHA-256 of the normalized text. The hash is modelled by
the normalized text itself (an injective stand-in for the digest). -/
def _hash_key (s : List Char) : List Char := normText s

/-- The cache/DLQ key `generate_embedding` computes for raw input `t`: it first
normalizes `t`, then calls `_hash_key` on the already-normalized text. -/
def keyOf (t : List Char) : List Char := _hash_key (normText t)

/-- One row of the `embed_cache` table (minus the key column). -/
structure CacheEntry where
  vector : List Int
  model : String
  dims : Nat
deriving DecidableEq

/-- One row of the `embed_dlq` table (minus the key column). Timestamps are
abstract `Nat` ticks supplied by the environment for `datetime('now')`. -/
structure DlqEntry where
  text : List Char
  last_error : String
  attempts : Nat
  last_attempt_at : Nat
deriving DecidableEq

/-- The `retry_policy` block of the configuration. -/
structure RetryPolicy where
  attempts : Nat
  base_ms : Nat
  max_ms : Nat
deriving DecidableEq

/-- The `circuit_breaker` block of the configuration. -/
structure BreakerConfig where
  failure_threshold : Nat
  pause_duration_s : Nat
deriving DecidableEq

/-- The slice of `CONFIG_DEFAULTS` the engine logic reads. -/
structure Config where
  expected_embed_model : String
  min_interval_ms : Nat
  retry_policy : RetryPolicy
  circuit_breaker : BreakerConfig
deriving DecidableEq

/-- The default configuration values from `CONFIG_DEFAULTS` in the source. -/
def CONFIG_DEFAULTS : Config :=
  { expected_embed_model := "nomic-embed-text"
    min_interval_ms := 2000
    retry_policy := { attempts := 3, base_ms := 1000, max_ms := 5000 }
    circuit_breaker := { failure_threshold := 10, pause_duration_s := 30 } }

/-- The mutable process-lifetime state of `VectorizerEngine`: the two MVM.db
tables it owns, the circuit-breaker counters, and the stats counters the
claims mention. -/
@[ext]
structure EngineState where
  cache : List (List Char × CacheEntry)
  dlq : List (List Char × DlqEntry)
  cb_failures : Nat
  circuit_trips : Nat
  cache_hits : Nat
  empty_text : Nat
  embeddings_generated : Nat
  embedding_errors : Nat
deriving DecidableEq

/-- Observable events of one engine run, in program order. -/
inductive Ev
  | acquireToken : Ev
  | cacheLookup (key : List Char) : Ev
  | cacheHit (key : List Char) : Ev
  | cbSleep (seconds : Nat) : Ev
  | inferCall (prompt : List Char) : Ev
  | retrySleep (ms : ℚ) : Ev
  | cacheWrite (key : List Char) : Ev
  | dlqWrite (key : List Char) : Ev
deriving DecidableEq

/-- The outcome of one POST to the inference endpoint, as the retry loop sees
it: a transport-level error (network failure, non-2xx status, JSON parse
failure), or a parsed body whose `embedding` field is missing or not a list
(`none`) or is a list (`some`). -/
inductive InferResponse
  | transportError (msg : String) : InferResponse
  | ok (embedding : Option (List Int)) : InferResponse
deriving DecidableEq

/-- The vector a response yields, if any: the source accepts `emb` only when
`isinstance(emb, list) and emb` holds, i.e. a present, nonempty list. -/
def respVec : InferResponse → Option (List Int)
  | InferResponse.ok (some (x :: xs)) => some (x :: xs)
  | _ => none

/-- Python `str(e)` for the exception a failed attempt raises: the transport error's
own message, or the `RuntimeError("invalid_embedding_payload")` the source
raises on a malformed body. -/
def errMsg : InferResponse → String
  | InferResponse.transportError m => m
  | InferResponse.ok _ => "invalid_embedding_payload"

/-- The environment one `generate_embedding` call runs against: the successive
inference responses (indexed by attempt number; exhaustion is a transport
error), the RNG draws for jitter, the clock, and the health of the three
fallible SQLite operations. -/
structure EmbedEnv where
  responses : List InferResponse
  rand : Nat → ℚ
  now : Nat
  cacheReadOk : Bool
  cacheWriteOk : Bool
  dlqWriteOk : Bool
  ensureTablesOk : Bool

/-- Python `_ensure_cache_tables`: `sqlite3.connect(self.mvm_db)` followed by
the three CREATE TABLE IF NOT EXISTS statements plus an index, then commit and
close. The DDL changes no state this model tracks, but the connect/DDL can
fail — for example in a qdrant-only run, where `initialize()` skips table
creation and the MVM.db path may be unreachable — and the call site at the top
of `generate_embedding` has no try/except, so the error propagates to the
caller. -/
def _ensure_cache_tables (env : EmbedEnv) : Except String Unit :=
  if env.ensureTablesOk then Except.ok ()
  else Except.error "sqlite3.OperationalError: unable to open database file"

/-- First value stored under a key in an association-list table. -/
def alistFind {V : Type} (k : List Char) : List (List Char × V) → Option V
  | [] => none
  | p :: rest => if p.1 = k then some p.2 else alistFind k rest

/-- The statement `INSERT OR IGNORE INTO embed_cache`: insert-if-absent. -/
def cacheInsert (cache : List (List Char × CacheEntry)) (k : List Char)
    (e : CacheEntry) : List (List Char × CacheEntry) :=
  match alistFind k cache with
  | some _ => cache
  | none => (k, e) :: cache

/-- The `embed_dlq` upsert: `INSERT ... VALUES(?,?,?,1,datetime('now')) ON
CONFLICT(key) DO UPDATE SET last_error=excluded.last_error,
attempts=embed_dlq.attempts+1, last_attempt_at=datetime('now')`. The stored
`text` is kept on conflict, exactly as the SQL does. -/
def dlqUpsert (dlq : List (List Char × DlqEntry)) (k text : List Char)
    (err : String) (now : Nat) : List (List Char × DlqEntry) :=
  match alistFind k dlq with
  | none => (k, { text := text, last_error := err, attempts := 1, last_attempt_at := now }) :: dlq
  | some _ =>
    dlq.map fun p =>
      if p.1 = k then
        (p.1, { text := p.2.text, last_error := err, attempts := p.2.attempts + 1,
                last_attempt_at := now })
      else p

/-- Python `_cool_if_cb_open`: at the gate, when `cb_failures >= cb_threshold`, sleep
`cb_pause_s * min(circuit_trips + 1, 5)` seconds, then reset the failure
counter and increment the trip counter; otherwise do nothing. The gate never
returns an error: its only effects are the recorded sleep and the counter
updates, after which the caller proceeds. -/
def _cool_if_cb_open (cfg : Config) (st : EngineState) : EngineState × List Ev :=
  if cfg.circuit_breaker.failure_threshold ≤ st.cb_failures then
    let m := min (st.circuit_trips + 1) 5
    let pause := cfg.circuit_breaker.pause_duration_s * m
    ({ st with cb_failures := 0, circuit_trips := st.circuit_trips + 1 }, [Ev.cbSleep pause])
  else (st, [])

/-- Python `min(rp["base_ms"] * (2 ** attempt), rp["max_ms"])`. -/
def minDelay (cfg : Config) (a : Nat) : Nat :=
  min (cfg.retry_policy.base_ms * 2 ^ a) cfg.retry_policy.max_ms

/-- Milliseconds slept between failed attempts `a` and `a + 1`:
`delay_ms + random.uniform(0, delay_ms * 0.1)`, with the uniform draw
modelled as `rand a * (delay_ms / 10)`. -/
def sleepVal (cfg : Config) (env : EmbedEnv) (a : Nat) : ℚ :=
  (minDelay cfg a : ℚ) + env.rand a * ((minDelay cfg a : ℚ) / 10)

/-- The response the inference endpoint gives to attempt `a`: an exhausted
response script behaves as a transport error. -/
def respAt (env : EmbedEnv) (a : Nat) : InferResponse :=
  env.responses.getD a (InferResponse.transportError "no_response")

/-- The retry loop of `generate_embedding` (`for attempt in range(attempts)`),
given the content key `k` and the normalized text `t`. `rem` is the number of
iterations still to run and `a` the current attempt index; the loop is entered
with `rem = attempts` and `a = 0`. A success writes through to the cache
(best-effort), resets `cb_failures`, and returns the vector; the final failed
attempt upserts the DLQ (best-effort) and returns `none`; intermediate
failures sleep with backoff and jitter, then retry. -/
def retryLoop (cfg : Config) (env : EmbedEnv) (k t : List Char) :
    Nat → Nat → EngineState → Option (List Int) × EngineState × List Ev
  | 0, _, st => (none, st, [])
  | rem + 1, a, st =>
    let resp := respAt env a
    match respVec resp with
    | some vec =>
      let entry : CacheEntry :=
        { vector := vec, model := cfg.expected_embed_model, dims := vec.length }
      let cache' := if env.cacheWriteOk then cacheInsert st.cache k entry else st.cache
      (some vec,
        { st with cache := cache', cb_failures := 0,
                  embeddings_generated := st.embeddings_generated + 1 },
        Ev.inferCall t :: if env.cacheWriteOk then [Ev.cacheWrite k] else [])
    | none =>
      let st1 := { st with embedding_errors := st.embedding_errors + 1,
                           cb_failures := st.cb_failures + 1 }
      if rem = 0 then
        let dlq' := if env.dlqWriteOk then dlqUpsert st1.dlq k t (errMsg resp) env.now
                    else st1.dlq
        (none, { st1 with dlq := dlq' },
          Ev.inferCall t :: if env.dlqWriteOk then [Ev.dlqWrite k] else [])
      else
        let r := retryLoop cfg env k t rem (a + 1) st1
        (r.1, r.2.1, Ev.inferCall t :: Ev.retrySleep (sleepVal cfg env a) :: r.2.2)

/-- The body of Python `generate_embedding(text)` after its first statement
(the unguarded `await self._ensure_cache_tables()`, modelled in
`generate_embedding_call` below, which wraps this body). In source order: pace
through the token bucket, normalize the text and return the empty sentinel
`some []` if nothing remains, try the cache (a read failure is logged and
treated as a miss), pass the circuit-breaker gate, and run the retry loop. -/
def generate_embedding (cfg : Config) (env : EmbedEnv) (st : EngineState)
    (text0 : List Char) : Option (List Int) × EngineState × List Ev :=
  let text := normText text0
  if text = [] then
    (some [], { st with empty_text := st.empty_text + 1 }, [Ev.acquireToken])
  else
    let k := _hash_key text
    match (if env.cacheReadOk then alistFind k st.cache else none) with
    | some entry =>
      (some entry.vector, { st with cache_hits := st.cache_hits + 1 },
        [Ev.acquireToken, Ev.cacheLookup k, Ev.cacheHit k])
    | none =>
      let c := _cool_if_cb_open cfg st
      let r := retryLoop cfg env k text cfg.retry_policy.attempts 0 c.1
      (r.1, r.2.1, Ev.acquireToken :: Ev.cacheLookup k :: (c.2 ++ r.2.2))

/-- Python `generate_embedding(text)` in full, including its first statement:
the unguarded `await self._ensure_cache_tables()`. When that sqlite connect +
DDL fails, the exception propagates out of the call — there is no try/except
around it — and nothing else runs; when it succeeds, the rest of the function
(`generate_embedding` above) runs and always returns normally. -/
def generate_embedding_call (cfg : Config) (env : EmbedEnv) (st : EngineState)
    (text0 : List Char) :
    Except String (Option (List Int) × EngineState × List Ev) :=
  match _ensure_cache_tables env with
  | Except.error e => Except.error e
  | Except.ok _ => Except.ok (generate_embedding cfg env st text0)

/-- One row of the external `chat_data` work queue (PROC.db). -/
structure WorkItem where
  rowid : Nat
  bubble_id : String
  composer_id : String
  created_at_utc : String
  text : List Char
  bubble_type_name : String
  processed : Bool
deriving DecidableEq

/-- One element of the `vectors` list `vectorize_batch` hands to the sink
writers. -/
structure VectorRecord where
  rowid : Nat
  bubble_id : String
  composer_id : String
  timestamp : String
  text : List Char
  bubble_type : String
  vector : List Int
deriving DecidableEq

/-- The query `SELECT ... FROM chat_data WHERE processed = 0 LIMIT batch_size`. -/
def batchRows (batch_size : Nat) (queue : List WorkItem) : List WorkItem :=
  (queue.filter fun r => !r.processed).take batch_size

/-- Python `get_queue_size`: count of unprocessed rows. A pure reader of the queue. -/
def get_queue_size (queue : List WorkItem) : Nat :=
  (queue.filter fun r => !r.processed).length

/-- The per-item loop of `vectorize_batch`: call `generate_embedding` on each
row's text; a `None` result goes to `failed`, anything else is appended to
`vectors` and `rowids_success`. `i` numbers the items so the environment can
differ per item. Returns (vectors, rowids_success, failed rowids, state,
trace). The loop models runs in which the cache-table initialization step has
succeeded: the source sets `_cache_initialized` after the first success, and a
failure instead aborts the whole batch through `vectorize_batch`'s outer
try/except with nothing handed to the sinks and nothing marked. -/
def batchLoop (cfg : Config) (envOf : Nat → EmbedEnv) :
    List WorkItem → Nat → EngineState →
    List VectorRecord × List Nat × List Nat × EngineState × List Ev
  | [], _, st => ([], [], [], st, [])
  | row :: rest, i, st =>
    let g := generate_embedding cfg (envOf i) st row.text
    match g.1 with
    | none =>
      let r := batchLoop cfg envOf rest (i + 1) g.2.1
      (r.1, r.2.1, row.rowid :: r.2.2.1, r.2.2.2.1, g.2.2 ++ r.2.2.2.2)
    | some v =>
      let vrec : VectorRecord :=
        { rowid := row.rowid, bubble_id := row.bubble_id, composer_id := row.composer_id,
          timestamp := row.created_at_utc, text := row.text,
          bubble_type := row.bubble_type_name, vector := v }
      let r := batchLoop cfg envOf rest (i + 1) g.2.1
      (vrec :: r.1, row.rowid :: r.2.1, r.2.2.1, r.2.2.2.1, g.2.2 ++ r.2.2.2.2)

/-- The per-item embedding results of a batch, in order: a replay of the same
calls `batchLoop` makes, recording only each item's returned value. -/
def batchResults (cfg : Config) (envOf : Nat → EmbedEnv) :
    List WorkItem → Nat → EngineState → List (Option (List Int))
  | [], _, _ => []
  | row :: rest, i, st =>
    let g := generate_embedding cfg (envOf i) st row.text
    g.1 :: batchResults cfg envOf rest (i + 1) g.2.1

/-- Everything `vectorize_batch` produces: the vectors handed to the sink
writers, the success and failure rowid lists, the queue after the
`UPDATE chat_data SET processed = 1 WHERE rowid IN (...)`, the engine state,
the trace, and the returned success count. -/
structure BatchResult where
  handed : List VectorRecord
  succIds : List Nat
  failIds : List Nat
  queue : List WorkItem
  engine : EngineState
  trace : List Ev
  retval : Nat
deriving DecidableEq

/-- Python `vectorize_batch(batch_size)`: read a slice of unprocessed rows, embed each
item, hand all successes to the sink writers as one unit, and mark only the
successful rowids as processed. The queue update maps over the table, flipping
`processed` for rows whose rowid is in the success list and touching nothing
else. -/
def vectorize_batch (cfg : Config) (envOf : Nat → EmbedEnv) (batch_size : Nat)
    (queue : List WorkItem) (st : EngineState) : BatchResult :=
  let rows := batchRows batch_size queue
  let r := batchLoop cfg envOf rows 0 st
  let queue' := queue.map fun q =>
    if q.rowid ∈ r.2.1 then { q with processed := true } else q
  { handed := r.1, succIds := r.2.1, failIds := r.2.2.1, queue := queue',
    engine := r.2.2.2.1, trace := r.2.2.2.2, retval := r.2.1.length }

/-- Kind test used to count inference calls in a trace. -/
def isInferCall : Ev → Bool
  | Ev.inferCall _ => true
  | _ => false

/-- The backoff sleeps of a trace, in order. -/
def sleepsOf (tr : List Ev) : List ℚ :=
  tr.filterMap fun e => match e with | Ev.retrySleep q => some q | _ => none

/-- The state fields other than the cache: DLQ, breaker counters, stats. -/
def coreOf (st : EngineState) : List (List Char × DlqEntry) × Nat × Nat × Nat × Nat × Nat × Nat :=
  (st.dlq, st.cb_failures, st.circuit_trips, st.cache_hits, st.empty_text,
   st.embeddings_generated, st.embedding_errors)

/-- A freshly constructed engine state: empty tables, all counters zero. -/
def st0 : EngineState := ⟨[], [], 0, 0, 0, 0, 0, 0⟩

/-- A benign environment fixture: no canned responses (every inference attempt
is a transport error), zero jitter draw, healthy storage. -/
def env0 : EmbedEnv := ⟨[], fun _ => 0, 0, true, true, true, true⟩

/-- Fixture: the first inference attempt succeeds with vector `[5, 7]`. -/
def envA : EmbedEnv := ⟨[InferResponse.ok (some [5, 7])], fun _ => 0, 0, true, true, true, true⟩

/-- Fixture: one transport error, then a success, with a mid-range jitter
draw. -/
def envRetry : EmbedEnv :=
  ⟨[InferResponse.transportError "boom", InferResponse.ok (some [2, 3])],
    fun _ => 1 / 2, 0, true, true, true, true⟩

/-- Fixture: a healthy inference endpoint but a broken embedding cache (reads
and writes both fail). -/
def envC7 : EmbedEnv := ⟨[InferResponse.ok (some [4])], fun _ => 0, 0, false, false, true, true⟩

/-- Fixture: the cache-table initialization step itself fails (for example a
qdrant-only run with the MVM.db path unreachable); everything else is
healthy. -/
def envTablesFail : EmbedEnv :=
  ⟨[InferResponse.ok (some [4])], fun _ => 0, 0, true, true, true, false⟩

/-- Fixture: a queued work item whose text is whitespace only. -/
def itemEmpty : WorkItem := ⟨1, "b1", "c1", "t1", "   ".toList, "assistant", false⟩

/-- Fixture: a second whitespace-only work item with a different identifier. -/
def itemEmpty2 : WorkItem := ⟨7, "b7", "c7", "t7", " \t ".toList, "user", false⟩

/-- Fixture: a work item whose embedding will succeed. -/
def itemA : WorkItem := ⟨1, "bA", "cA", "tA", "aa".toList, "user", false⟩

/-- Fixture: a work item whose embedding will permanently fail. -/
def itemB : WorkItem := ⟨2, "bB", "cB", "tB", "bb".toList, "assistant", false⟩

/-- Fixture: the first batch item gets the succeeding environment, every later
item the failing one. -/
def envOfAB : Nat → EmbedEnv := fun j => if j = 0 then envA else env0

/-- Fixture: a DLQ key not present in `dlqW`. -/
def k1 : List Char := "k1".toList

/-- Fixture: the key of the one pre-existing DLQ entry. -/
def kOther : List Char := "other".toList

/-- Fixture: a pre-existing DLQ row under an unrelated key. -/
def eOther : DlqEntry :=
  { text := "o".toList, last_error := "e0", attempts := 3, last_attempt_at := 7 }

/-- Fixture: a DLQ table holding one unrelated entry. -/
def dlqW : List (List Char × DlqEntry) := [(kOther, eOther)]

/-- Fixture: the failing text for the DLQ upsert witness. -/
def tW : List Char := "t".toList

/-- Fixture: the cache key for the idempotence witness. -/
def keyHi : List Char := "hi there".toList

/-- Fixture: the cache row the idempotence witness expects. -/
def entryHi : CacheEntry :=
  { vector := [5, 7], model := "nomic-embed-text", dims := 2 }

/-! ## Lemmas about `words`, `joinWords` and normalization -/

theorem words_one_cons (c : Char) :
    words [c] = if isSpaceChar c then [] else [[c]] := rfl

theorem words_two_cons (c d : Char) (ds : List Char) :
    words (c :: d :: ds) =
      if isSpaceChar c then words (d :: ds)
      else if isSpaceChar d then [c] :: words (d :: ds)
      else consWord c (words (d :: ds)) := rfl

theorem words_cons_space {c : Char} (cs : List Char) (h : isSpaceChar c = true) :
    words (c :: cs) = words cs := by
  cases cs with
  | nil => simp [words_one_cons, h, words]
  | cons d ds => simp [words_two_cons, h]

theorem words_singleton {c : Char} (h : isSpaceChar c = false) :
    words [c] = [[c]] := by
  simp [words_one_cons, h]

theorem words_cons_cons_space {c d : Char} (ds : List Char) (hc : isSpaceChar c = false)
    (hd : isSpaceChar d = true) : words (c :: d :: ds) = [c] :: words (d :: ds) := by
  simp [words_two_cons, hc, hd]

theorem words_cons_cons {c d : Char} (ds : List Char) (hc : isSpaceChar c = false)
    (hd : isSpaceChar d = false) : words (c :: d :: ds) = consWord c (words (d :: ds)) := by
  simp [words_two_cons, hc, hd]

theorem consWord_ne_nil (c : Char) (ws : List (List Char)) : consWord c ws ≠ [] := by
  cases ws <;> simp [consWord]

theorem words_ne_nil {c : Char} (cs : List Char) (hc : isSpaceChar c = false) :
    words (c :: cs) ≠ [] := by
  cases cs with
  | nil => simp [words_singleton hc]
  | cons d ds =>
    cases hd : isSpaceChar d with
    | true => simp [words_cons_cons_space ds hc hd]
    | false => rw [words_cons_cons ds hc hd]; exact consWord_ne_nil c _

theorem words_all_space {t : List Char} (h : ∀ x ∈ t, isSpaceChar x = true) :
    words t = [] := by
  induction t with
  | nil => rfl
  | cons c cs ih =>
    rw [words_cons_space cs (h c (by simp))]
    exact ih fun x hx => h x (by simp [hx])

theorem words_eq_single {v : List Char} (hne : v ≠ [])
    (hsp : ∀ c ∈ v, isSpaceChar c = false) : words v = [v] := by
  induction v with
  | nil => exact absurd rfl hne
  | cons c cs ih =>
    have hc : isSpaceChar c = false := hsp c (by simp)
    cases cs with
    | nil => exact words_singleton hc
    | cons d ds =>
      have hd : isSpaceChar d = false := hsp d (by simp)
      rw [words_cons_cons ds hc hd, ih (by simp) fun x hx => hsp x (by simp [hx])]
      rfl

theorem words_word_append {w r : List Char} (hne : w ≠ [])
    (hsp : ∀ c ∈ w, isSpaceChar c = false) :
    words (w ++ ' ' :: r) = w :: words r := by
  induction w with
  | nil => exact absurd rfl hne
  | cons c cs ih =>
    have hc : isSpaceChar c = false := hsp c (by simp)
    cases cs with
    | nil =>
      rw [List.cons_append, List.nil_append, words_cons_cons_space r hc (by decide),
        words_cons_space r (by decide)]
    | cons d ds =>
      have hd : isSpaceChar d = false := hsp d (by simp)
      rw [List.cons_append, List.cons_append, words_cons_cons _ hc hd,
        ← List.cons_append, ih (by simp) fun x hx => hsp x (by simp [hx])]
      rfl

theorem words_append_space {s t : List Char} (h : ∀ x ∈ t, isSpaceChar x = true) :
    words (s ++ t) = words s := by
  induction s with
  | nil => exact words_all_space h
  | cons c cs ih =>
    cases hc : isSpaceChar c with
    | true => rw [List.cons_append, words_cons_space _ hc, words_cons_space _ hc]; exact ih
    | false =>
      cases cs with
      | nil =>
        cases t with
        | nil => simp
        | cons u us =>
          have hu : isSpaceChar u = true := h u (by simp)
          rw [List.cons_append, List.nil_append, words_cons_cons_space us hc hu,
            words_all_space h, words_singleton hc]
      | cons d ds =>
        cases hd : isSpaceChar d with
        | true =>
          rw [List.cons_append, List.cons_append, words_cons_cons_space _ hc hd,
            words_cons_cons_space _ hc hd, ← List.cons_append, ih]
        | false =>
          rw [List.cons_append, List.cons_append, words_cons_cons _ hc hd,
            words_cons_cons _ hc hd, ← List.cons_append, ih]

theorem words_lstrip (s : List Char) : words (lstrip s) = words s := by
  induction s with
  | nil => rfl
  | cons c cs ih =>
    cases hc : isSpaceChar c with
    | true =>
      rw [lstrip, List.dropWhile_cons_of_pos (by simp [hc]), words_cons_space _ hc]
      exact ih
    | false => rw [lstrip, List.dropWhile_cons_of_neg (by simp [hc])]

theorem rstrip_decomp (s : List Char) :
    ∃ t, s = rstrip s ++ t ∧ ∀ x ∈ t, isSpaceChar x = true := by
  induction s with
  | nil => exact ⟨[], rfl, by simp⟩
  | cons c cs ih =>
    obtain ⟨t, ht, hall⟩ := ih
    cases hr : rstrip cs with
    | nil =>
      have hcs : cs = t := by simpa [hr] using ht
      cases hc : isSpaceChar c with
      | true =>
        refine ⟨c :: cs, ?_, ?_⟩
        · simp [rstrip, hr, hc]
        · intro x hx
          rcases List.mem_cons.mp hx with h1 | h2
          · rw [h1]; exact hc
          · exact hall x (hcs ▸ h2)
      | false =>
        refine ⟨t, ?_, hall⟩
        simp [rstrip, hr, hc, ← hcs]
    | cons y ys =>
      refine ⟨t, ?_, hall⟩
      have : rstrip (c :: cs) = c :: rstrip cs := by
        rw [rstrip, hr]
      rw [this, hr, ← hr, List.cons_append, ← ht]

theorem words_rstrip (s : List Char) : words (rstrip s) = words s := by
  obtain ⟨t, ht, hall⟩ := rstrip_decomp s
  conv_rhs => rw [ht]
  rw [words_append_space hall]

theorem words_pyStrip (s : List Char) : words (pyStrip s) = words s := by
  rw [pyStrip, words_rstrip, words_lstrip]

theorem joinWords_ne_nil {ws : List (List Char)} (hne : ws ≠ [])
    (hw : ∀ w ∈ ws, w ≠ []) : joinWords ws ≠ [] := by
  cases ws with
  | nil => exact absurd rfl hne
  | cons w ws' =>
    cases ws' with
    | nil => simpa [joinWords] using hw w (by simp)
    | cons x ws'' => simp [joinWords]

theorem joinWords_cons_cons (w x : List Char) (ws : List (List Char)) :
    joinWords (w :: x :: ws) = w ++ ' ' :: joinWords (x :: ws) := rfl

theorem joinWords_head (x : List Char) (ws : List (List Char)) :
    ∃ rest, joinWords (x :: ws) = x ++ rest := by
  cases ws with
  | nil => exact ⟨[], by simp [joinWords]⟩
  | cons y ys => exact ⟨' ' :: joinWords (y :: ys), rfl⟩

theorem getLast?_cons_of_ne_nil {α : Type} (a : α) {l : List α} (h : l ≠ []) :
    (a :: l).getLast? = l.getLast? := by
  cases l with
  | nil => exact absurd rfl h
  | cons b t => exact List.getLast?_cons_cons

theorem words_good (s : List Char) :
    ∀ w ∈ words s, w ≠ [] ∧ ∀ c ∈ w, isSpaceChar c = false := by
  induction s with
  | nil => simp [words]
  | cons c cs ih =>
    cases hc : isSpaceChar c with
    | true => rw [words_cons_space cs hc]; exact ih
    | false =>
      cases cs with
      | nil =>
        rw [words_singleton hc]
        intro w hw
        rw [List.mem_singleton.mp hw]
        refine ⟨by simp, ?_⟩
        intro x hx
        rw [List.mem_singleton.mp hx]
        exact hc
      | cons d ds =>
        cases hd : isSpaceChar d with
        | true =>
          rw [words_cons_cons_space ds hc hd]
          intro w hw
          rcases List.mem_cons.mp hw with h1 | h2
          · rw [h1]
            refine ⟨by simp, ?_⟩
            intro x hx
            rw [List.mem_singleton.mp hx]
            exact hc
          · exact ih w h2
        | false =>
          rw [words_cons_cons ds hc hd]
          cases hwds : words (d :: ds) with
          | nil =>
            intro w hw
            have hwc : w = [c] := by simpa [consWord] using hw
            rw [hwc]
            refine ⟨by simp, ?_⟩
            intro x hx
            rw [List.mem_singleton.mp hx]
            exact hc
          | cons u us =>
            intro w hw
            rcases List.mem_cons.mp (by simpa [consWord] using hw) with h1 | h2
            · rw [h1]
              have hu := ih u (by rw [hwds]; simp)
              refine ⟨by simp, ?_⟩
              intro x hx
              rcases List.mem_cons.mp hx with h3 | h4
              · rw [h3]; exact hc
              · exact hu.2 x h4
            · exact ih w (by rw [hwds]; exact List.mem_cons_of_mem u h2)

theorem collapse_take_word (w : List Char) (n : Nat)
    (hsp : ∀ c ∈ w, isSpaceChar c = false) :
    joinWords (words (w.take n)) = w.take n := by
  by_cases hv : w.take n = []
  · simp [hv, words, joinWords]
  · rw [words_eq_single hv fun c hc => hsp c (List.take_subset n w hc)]
    rfl

theorem take_joinWords_collapse (ws : List (List Char)) (n : Nat)
    (hws : ∀ w ∈ ws, w ≠ [] ∧ ∀ c ∈ w, isSpaceChar c = false)
    (hlast : ((joinWords ws).take n).getLast? ≠ some ' ') :
    joinWords (words ((joinWords ws).take n)) = (joinWords ws).take n := by
  induction ws generalizing n with
  | nil => simp [joinWords, words]
  | cons w ws' ih =>
    cases ws' with
    | nil =>
      have : joinWords [w] = w := rfl
      rw [this] at hlast ⊢
      exact collapse_take_word w n (hws w (by simp)).2
    | cons x ws'' =>
      have hw := hws w (by simp)
      have hxg := hws x (by simp)
      rw [joinWords_cons_cons] at hlast ⊢
      rcases Nat.lt_or_ge n (w.length + 1) with h1 | h1
      · -- n ≤ w.length: the prefix lies inside the first word
        have hn : n ≤ w.length := by omega
        have ht : (w ++ ' ' :: joinWords (x :: ws'')).take n = w.take n := by
          rw [List.take_append_eq_append_take, Nat.sub_eq_zero_of_le hn]
          simp
        rw [ht] at hlast ⊢
        exact collapse_take_word w n hw.2
      · rcases Nat.lt_or_ge n (w.length + 2) with h2 | h2
        · -- n = w.length + 1: the prefix is the word plus the separator space
          have hn : n = w.length + 1 := by omega
          have ht : (w ++ ' ' :: joinWords (x :: ws'')).take n = w ++ [' '] := by
            rw [List.take_append_eq_append_take, List.take_of_length_le (by omega), hn]
            simp
          rw [ht, List.getLast?_concat] at hlast
          exact absurd rfl hlast
        · -- n ≥ w.length + 2: the prefix reaches into the tail
          have hm : n - w.length = (n - w.length - 1) + 1 := by omega
          have ht : (w ++ ' ' :: joinWords (x :: ws'')).take n =
              w ++ ' ' :: (joinWords (x :: ws'')).take (n - w.length - 1) := by
            rw [List.take_append_eq_append_take, List.take_of_length_le (by omega), hm,
              List.take_succ_cons]
            simp
          rw [ht] at hlast ⊢
          obtain ⟨rest, hrest⟩ := joinWords_head x ws''
          obtain ⟨a, x0, hx⟩ : ∃ a x0, x = a :: x0 := by
            cases x with
            | nil => exact absurd rfl hxg.1
            | cons a x0 => exact ⟨a, x0, rfl⟩
          have ha : isSpaceChar a = false := hxg.2 a (by rw [hx]; simp)
          have hv' : (joinWords (x :: ws'')).take (n - w.length - 1) =
              a :: (x0 ++ rest).take (n - w.length - 2) := by
            rw [hrest, hx]
            have : n - w.length - 1 = (n - w.length - 2) + 1 := by omega
            rw [this, List.cons_append, List.take_succ_cons]
          have hvne : (joinWords (x :: ws'')).take (n - w.length - 1) ≠ [] := by
            rw [hv']; simp
          have hlast' : ((joinWords (x :: ws'')).take (n - w.length - 1)).getLast? ≠
              some ' ' := by
            intro hcon
            apply hlast
            rw [List.getLast?_append, getLast?_cons_of_ne_nil ' ' hvne, hcon]
            rfl
          have hih := ih (n - w.length - 1) (fun u hu => hws u (List.mem_cons_of_mem w hu))
            hlast'
          have hwv : words (w ++ ' ' :: (joinWords (x :: ws'')).take (n - w.length - 1)) =
              w :: words ((joinWords (x :: ws'')).take (n - w.length - 1)) :=
            words_word_append hw.1 hw.2
          rw [hwv]
          have hwne : words ((joinWords (x :: ws'')).take (n - w.length - 1)) ≠ [] := by
            rw [hv']
            exact words_ne_nil _ ha
          cases hu : words ((joinWords (x :: ws'')).take (n - w.length - 1)) with
          | nil => exact absurd hu hwne
          | cons u us =>
            rw [joinWords_cons_cons]
            rw [hu] at hih
            rw [hih]

theorem normText_eq (s : List Char) :
    normText s = (joinWords (words s)).take 8000 := by
  by_cases h : s = []
  · simp [normText, _norm_text, h, words, joinWords]
  · simp only [normText, _norm_text, h, if_false, words_pyStrip]

/-! ## C10: normalization idempotence -/

/-- C10 counterexample: `_norm_text` is not idempotent at the default cap.
For 7999 copies of `a` followed by `" b"`, the collapsed text has 8001
characters, so truncation to 8000 leaves a trailing space that a second
normalization removes. -/
theorem norm_idem_cex :
    normText (normText (List.replicate 7999 'a' ++ [' ', 'b'])) ≠
      normText (List.replicate 7999 'a' ++ [' ', 'b']) := by
  have hwsp : ∀ c ∈ List.replicate 7999 'a', isSpaceChar c = false := by
    intro c hc
    rw [(List.mem_replicate.mp hc).2]
    decide
  have hrepne : List.replicate 7999 'a' ≠ [] := by
    intro h
    have h2 := congrArg List.length h
    rw [List.length_replicate, List.length_nil] at h2
    omega
  have hreplen : (List.replicate 7999 'a').length ≤ 8000 := by
    rw [List.length_replicate]
    omega
  have hwords : words (List.replicate 7999 'a' ++ [' ', 'b']) =
      [List.replicate 7999 'a', ['b']] := by
    have h0 : List.replicate 7999 'a' ++ [' ', 'b'] =
        List.replicate 7999 'a' ++ ' ' :: ['b'] := rfl
    rw [h0, words_word_append hrepne hwsp, words_singleton (by decide)]
  have hnorm1 : normText (List.replicate 7999 'a' ++ [' ', 'b']) =
      List.replicate 7999 'a' ++ [' '] := by
    rw [normText_eq, hwords, joinWords_cons_cons]
    have h1 : joinWords [['b']] = ['b'] := rfl
    rw [h1, List.take_append_eq_append_take, List.take_of_length_le hreplen,
      List.length_replicate]
    rfl
  have hnorm2 : normText (List.replicate 7999 'a' ++ [' ']) =
      List.replicate 7999 'a' := by
    have hsp : ∀ x ∈ [' '], isSpaceChar x = true := by
      intro x hx
      rw [List.mem_singleton.mp hx]
      decide
    rw [normText_eq, words_append_space hsp, words_eq_single hrepne hwsp]
    have h2 : joinWords [List.replicate 7999 'a'] = List.replicate 7999 'a' := rfl
    rw [h2, List.take_of_length_le hreplen]
  rw [hnorm1, hnorm2]
  intro heq
  have h3 := congrArg List.length heq
  rw [List.length_replicate, List.length_append, List.length_replicate] at h3
  simp only [List.length_singleton] at h3
  omega

/-- C10 (amended): `_norm_text` is idempotent on every input whose normalized
form does not end in a space character (truncation at the cap is the only way
a trailing space can survive), and for such inputs the content-hash key
computed inside `generate_embedding` — the hash of the re-normalized text —
equals the hash of the once-normalized text. -/
theorem norm_idem_amended (s : List Char) (h : (normText s).getLast? ≠ some ' ') :
    normText (normText s) = normText s ∧ _hash_key (normText s) = _hash_key s := by
  have hmain : normText (normText s) = normText s := by
    rw [normText_eq s] at h
    rw [normText_eq s, normText_eq ((joinWords (words s)).take 8000),
      take_joinWords_collapse (words s) 8000 (words_good s) h, List.take_take]
    simp
  refine ⟨hmain, ?_⟩
  show normText (normText s) = normText s
  exact hmain

/-- Witness for C10 (amended) at a concrete input whose normalized form ends
in a non-space character. -/
theorem norm_idem_amended_witness :
    (normText " a  b ".toList).getLast? ≠ some ' ' ∧
      (normText (normText " a  b ".toList) = normText " a  b ".toList ∧
        _hash_key (normText " a  b ".toList) = _hash_key " a  b ".toList) :=
  ⟨by decide, norm_idem_amended " a  b ".toList (by decide)⟩

/-! ## Association-list lemmas for the cache and DLQ tables -/

theorem alistFind_ne_of_none {V : Type} {k : List Char} {d : List (List Char × V)}
    (h : alistFind k d = none) : ∀ p ∈ d, p.1 ≠ k := by
  induction d with
  | nil => simp
  | cons p rest ih =>
    rw [alistFind] at h
    by_cases hp : p.1 = k
    · rw [if_pos hp] at h; exact absurd h (by simp)
    · rw [if_neg hp] at h
      intro q hq
      rcases List.mem_cons.mp hq with h1 | h2
      · rw [h1]; exact hp
      · exact ih h q h2

theorem alistFind_update {V : Type} (k : List Char) (f : V → V)
    {d : List (List Char × V)} {e : V} (he : alistFind k d = some e) :
    alistFind k (d.map fun p => if p.1 = k then (p.1, f p.2) else p) = some (f e) := by
  induction d with
  | nil => simp [alistFind] at he
  | cons p rest ih =>
    rw [alistFind] at he
    by_cases hp : p.1 = k
    · rw [if_pos hp] at he
      injection he with he'
      rw [List.map_cons, if_pos hp, alistFind, if_pos hp, he']
    · rw [if_neg hp] at he
      rw [List.map_cons, if_neg hp, alistFind, if_neg hp]
      exact ih he

theorem map_update_of_none {V : Type} (k : List Char) (f : V → V)
    {d : List (List Char × V)} (h : alistFind k d = none) :
    (d.map fun p => if p.1 = k then (p.1, f p.2) else p) = d := by
  induction d with
  | nil => rfl
  | cons p rest ih =>
    rw [alistFind] at h
    by_cases hp : p.1 = k
    · rw [if_pos hp] at h; exact absurd h (by simp)
    · rw [if_neg hp] at h
      rw [List.map_cons, if_neg hp, ih h]

theorem filter_key_of_none {V : Type} (k : List Char) {d : List (List Char × V)}
    (h : alistFind k d = none) :
    d.filter (fun p => decide (p.1 = k)) = [] := by
  induction d with
  | nil => rfl
  | cons p rest ih =>
    rw [alistFind] at h
    by_cases hp : p.1 = k
    · rw [if_pos hp] at h; exact absurd h (by simp)
    · rw [if_neg hp] at h
      rw [List.filter_cons_of_neg (by simp [hp]), ih h]

theorem not_mem_keys_of_none {V : Type} (k : List Char) {d : List (List Char × V)}
    (h : alistFind k d = none) : k ∉ d.map Prod.fst := by
  intro hk
  obtain ⟨p, hp, hpe⟩ := List.mem_map.mp hk
  exact alistFind_ne_of_none h p hp hpe

/-! ## C4: Dead Letter Store upsert semantics -/

/-- C4: the DLQ upsert inserts `attempts = 1` on an absent key, on a present
key increments `attempts` while overwriting `last_error` and
`last_attempt_at`, keeps keys unique (at most one entry per key), and two
consecutive upserts for the same key starting from an absent key leave exactly
one entry with `attempts = 2`. -/
theorem dlq_upsert_semantics (d : List (List Char × DlqEntry)) (k t t2 : List Char)
    (err1 err2 : String) (n1 n2 : Nat)
    (h0 : alistFind k d = none) (hnd : (d.map Prod.fst).Nodup) :
    dlqUpsert d k t err1 n1 = (k, ⟨t, err1, 1, n1⟩) :: d ∧
    alistFind k (dlqUpsert (dlqUpsert d k t err1 n1) k t2 err2 n2) =
      some ⟨t, err2, 2, n2⟩ ∧
    ((dlqUpsert (dlqUpsert d k t err1 n1) k t2 err2 n2).filter
      (fun p => decide (p.1 = k))).length = 1 ∧
    ((dlqUpsert d k t err1 n1).map Prod.fst).Nodup ∧
    ((dlqUpsert (dlqUpsert d k t err1 n1) k t2 err2 n2).map Prod.fst).Nodup ∧
    (∀ (d' : List (List Char × DlqEntry)) (e : DlqEntry) (t3 : List Char)
      (err3 : String) (n3 : Nat), alistFind k d' = some e →
      alistFind k (dlqUpsert d' k t3 err3 n3) =
        some ⟨e.text, err3, e.attempts + 1, n3⟩) := by
  have hupd : ∀ (d' : List (List Char × DlqEntry)) (e : DlqEntry) (t3 : List Char)
      (err3 : String) (n3 : Nat), alistFind k d' = some e →
      alistFind k (dlqUpsert d' k t3 err3 n3) =
        some ⟨e.text, err3, e.attempts + 1, n3⟩ := by
    intro d' e t3 err3 n3 he
    have h1 : dlqUpsert d' k t3 err3 n3 =
        d'.map fun p => if p.1 = k then
          (p.1, (⟨p.2.text, err3, p.2.attempts + 1, n3⟩ : DlqEntry)) else p := by
      rw [dlqUpsert, he]
    rw [h1]
    exact alistFind_update k (fun v => ⟨v.text, err3, v.attempts + 1, n3⟩) he
  have hins : dlqUpsert d k t err1 n1 = (k, ⟨t, err1, 1, n1⟩) :: d := by
    rw [dlqUpsert, h0]
  have hfind1 : alistFind k (dlqUpsert d k t err1 n1) = some ⟨t, err1, 1, n1⟩ := by
    rw [hins, alistFind, if_pos rfl]
  have hd2 : dlqUpsert (dlqUpsert d k t err1 n1) k t2 err2 n2 =
      (k, ⟨t, err2, 2, n2⟩) :: d := by
    rw [hins, dlqUpsert, alistFind, if_pos rfl, List.map_cons, if_pos rfl,
      map_update_of_none k (fun v => ⟨v.text, err2, v.attempts + 1, n2⟩) h0]
  refine ⟨hins, ?_, ?_, ?_, ?_, hupd⟩
  · rw [hd2, alistFind, if_pos rfl]
  · rw [hd2, List.filter_cons_of_pos (by simp), filter_key_of_none k h0]
    rfl
  · rw [hins, List.map_cons]
    exact List.nodup_cons.mpr ⟨not_mem_keys_of_none k h0, hnd⟩
  · rw [hd2, List.map_cons]
    exact List.nodup_cons.mpr ⟨not_mem_keys_of_none k h0, hnd⟩

/-- Witness for C4 at a concrete DLQ with one unrelated key. -/
theorem dlq_upsert_semantics_witness :
    alistFind k1 dlqW = none ∧
    dlqUpsert dlqW k1 tW "boom" 11 =
      (k1, { text := tW, last_error := "boom", attempts := 1,
             last_attempt_at := 11 }) :: dlqW ∧
    alistFind k1 (dlqUpsert (dlqUpsert dlqW k1 tW "boom" 11) k1 tW "boom2" 12) =
      some { text := tW, last_error := "boom2", attempts := 2,
             last_attempt_at := 12 } :=
  ⟨by decide, by
    have h := dlq_upsert_semantics dlqW k1 tW tW "boom" "boom2" 11 12
      (by decide) (by decide)
    exact ⟨h.1, h.2.1⟩⟩

/-! ## C5: the circuit-breaker gate -/

/-- C5: at the gate, `consecutive_failures ≥ failure_threshold` (default 10)
makes the engine sleep the caller for
`pause_duration_s * min(circuit_trips + 1, 5)` seconds — the gate returns
normally rather than raising — and afterwards the failure counter is 0 and the
trip counter is incremented; below the threshold the gate is a no-op. -/
theorem circuit_breaker_gate (cfg : Config) (st : EngineState) :
    (cfg.circuit_breaker.failure_threshold ≤ st.cb_failures →
      _cool_if_cb_open cfg st =
        ({ st with cb_failures := 0, circuit_trips := st.circuit_trips + 1 },
          [Ev.cbSleep (cfg.circuit_breaker.pause_duration_s *
            min (st.circuit_trips + 1) 5)])) ∧
    (st.cb_failures < cfg.circuit_breaker.failure_threshold →
      _cool_if_cb_open cfg st = (st, [])) ∧
    CONFIG_DEFAULTS.circuit_breaker.failure_threshold = 10 := by
  refine ⟨?_, ?_, rfl⟩
  · intro h
    rw [_cool_if_cb_open, if_pos h]
  · intro h
    rw [_cool_if_cb_open, if_neg (by omega)]

/-- Witness for C5: a tripped breaker (10 failures, 2 prior trips) sleeps
`30 * 3 = 90` seconds, resets the failure counter, and increments the trip
counter. -/
theorem circuit_breaker_gate_witness :
    CONFIG_DEFAULTS.circuit_breaker.failure_threshold ≤
      ({ st0 with cb_failures := 10, circuit_trips := 2 } : EngineState).cb_failures ∧
    _cool_if_cb_open CONFIG_DEFAULTS { st0 with cb_failures := 10, circuit_trips := 2 } =
      ({ st0 with cb_failures := 0, circuit_trips := 3 }, [Ev.cbSleep 90]) :=
  ⟨by decide, by
    have h := (circuit_breaker_gate CONFIG_DEFAULTS
      { st0 with cb_failures := 10, circuit_trips := 2 }).1 (by decide)
    rw [h]
    decide⟩

/-! ## C6: the empty-text sentinel -/

/-- C6 counterexample: for input `"   "` (which normalizes to nothing) the
engine's trace is exactly `[acquireToken]` — the rate-limiter token IS
acquired before the empty sentinel is returned, contradicting the claimed
normalize-first ordering. -/
theorem empty_before_limiter_cex :
    (generate_embedding CONFIG_DEFAULTS env0 st0 "   ".toList).2.2 =
      [Ev.acquireToken] ∧
    Ev.acquireToken ∈ (generate_embedding CONFIG_DEFAULTS env0 st0 "   ".toList).2.2 ∧
    (generate_embedding CONFIG_DEFAULTS env0 st0 "   ".toList).1 = some [] := by
  refine ⟨by decide, ?_, by decide⟩
  rw [show (generate_embedding CONFIG_DEFAULTS env0 st0 "   ".toList).2.2 =
    [Ev.acquireToken] by decide]
  simp

/-- C6 (amended): inputs whose normalized form is empty return the empty
sentinel immediately after the rate-limiter acquisition (acquisition is step
1, normalization step 2) and without any cache lookup, cache write, or
inference call: the trace is exactly `[acquireToken]` and the only state
change is the `empty_text` counter. -/
theorem empty_after_limiter (cfg : Config) (env : EmbedEnv) (st : EngineState)
    (t : List Char) (h : normText t = []) :
    generate_embedding cfg env st t =
      (some [], { st with empty_text := st.empty_text + 1 }, [Ev.acquireToken]) := by
  simp [generate_embedding, h]

/-- Witness for C6 (amended) at the whitespace-only input `" \t "`. -/
theorem empty_after_limiter_witness :
    normText " \t ".toList = [] ∧
    generate_embedding CONFIG_DEFAULTS env0 st0 " \t ".toList =
      (some [], { st0 with empty_text := st0.empty_text + 1 }, [Ev.acquireToken]) :=
  ⟨by decide, empty_after_limiter CONFIG_DEFAULTS env0 st0 " \t ".toList (by decide)⟩

/-! ## Retry-loop lemmas -/

theorem retryLoop_zero (cfg : Config) (env : EmbedEnv) (k t : List Char) (a : Nat)
    (st : EngineState) : retryLoop cfg env k t 0 a st = (none, st, []) := rfl

theorem retryLoop_success {cfg : Config} {env : EmbedEnv} {k t : List Char} {a : Nat}
    {v : List Int} (rem : Nat) (st : EngineState)
    (h : respVec (respAt env a) = some v) :
    retryLoop cfg env k t (rem + 1) a st =
      (some v,
        { st with
            cache := if env.cacheWriteOk then
                cacheInsert st.cache k ⟨v, cfg.expected_embed_model, v.length⟩
              else st.cache,
            cb_failures := 0,
            embeddings_generated := st.embeddings_generated + 1 },
        Ev.inferCall t :: if env.cacheWriteOk then [Ev.cacheWrite k] else []) := by
  simp only [retryLoop, h]

theorem retryLoop_last_fail {cfg : Config} {env : EmbedEnv} {k t : List Char} {a : Nat}
    (st : EngineState) (h : respVec (respAt env a) = none) :
    retryLoop cfg env k t 1 a st =
      (none,
        { st with
            embedding_errors := st.embedding_errors + 1,
            cb_failures := st.cb_failures + 1,
            dlq := if env.dlqWriteOk then
                dlqUpsert st.dlq k t (errMsg (respAt env a)) env.now
              else st.dlq },
        Ev.inferCall t :: if env.dlqWriteOk then [Ev.dlqWrite k] else []) := by
  simp only [retryLoop, h]
  rw [if_pos trivial]

theorem retryLoop_step_fail {cfg : Config} {env : EmbedEnv} {k t : List Char} {a : Nat}
    (rem : Nat) (st : EngineState) (h : respVec (respAt env a) = none) :
    retryLoop cfg env k t (rem + 2) a st =
      ((retryLoop cfg env k t (rem + 1) (a + 1)
          { st with embedding_errors := st.embedding_errors + 1,
                    cb_failures := st.cb_failures + 1 }).1,
        (retryLoop cfg env k t (rem + 1) (a + 1)
          { st with embedding_errors := st.embedding_errors + 1,
                    cb_failures := st.cb_failures + 1 }).2.1,
        Ev.inferCall t :: Ev.retrySleep (sleepVal cfg env a) ::
          (retryLoop cfg env k t (rem + 1) (a + 1)
            { st with embedding_errors := st.embedding_errors + 1,
                      cb_failures := st.cb_failures + 1 }).2.2) := by
  simp only [retryLoop, h]
  rw [if_neg (by omega : ¬rem + 1 = 0)]

theorem retryLoop_count (cfg : Config) (env : EmbedEnv) (k t : List Char) :
    ∀ rem a st, ((retryLoop cfg env k t rem a st).2.2.countP isInferCall) ≤ rem := by
  intro rem
  induction rem with
  | zero => intro a st; simp [retryLoop_zero]
  | succ r ih =>
    intro a st
    cases hr : respVec (respAt env a) with
    | some v =>
      rw [retryLoop_success r st hr]
      cases hw : env.cacheWriteOk <;> simp [List.countP_cons, isInferCall, hw]
    | none =>
      cases r with
      | zero =>
        rw [retryLoop_last_fail st hr]
        cases hw : env.dlqWriteOk <;> simp [List.countP_cons, isInferCall, hw]
      | succ r' =>
        rw [retryLoop_step_fail r' st hr]
        have hb := ih (a + 1)
          { st with embedding_errors := st.embedding_errors + 1,
                    cb_failures := st.cb_failures + 1 }
        simp [List.countP_cons, isInferCall]
        omega

theorem retryLoop_sleep_mem (cfg : Config) (env : EmbedEnv) (k t : List Char) :
    ∀ rem a st q, q ∈ sleepsOf (retryLoop cfg env k t rem a st).2.2 →
      ∃ j, q = sleepVal cfg env j := by
  intro rem
  induction rem with
  | zero => intro a st q hq; simp [retryLoop_zero, sleepsOf] at hq
  | succ r ih =>
    intro a st q hq
    cases hr : respVec (respAt env a) with
    | some v =>
      rw [retryLoop_success r st hr] at hq
      cases hw : env.cacheWriteOk <;> simp [sleepsOf, hw] at hq
    | none =>
      cases r with
      | zero =>
        rw [retryLoop_last_fail st hr] at hq
        cases hw : env.dlqWriteOk <;> simp [sleepsOf, hw] at hq
      | succ r' =>
        rw [retryLoop_step_fail r' st hr] at hq
        simp only [sleepsOf, List.filterMap_cons] at hq
        rcases List.mem_cons.mp hq with h1 | h2
        · exact ⟨a, h1⟩
        · exact ih (a + 1) _ q h2

theorem retryLoop_all_fail (cfg : Config) (env : EmbedEnv) (k t : List Char) :
    ∀ rem a st, 1 ≤ rem →
    (∀ j, a ≤ j → j < a + rem → respVec (respAt env j) = none) →
    (retryLoop cfg env k t rem a st).1 = none ∧
    (retryLoop cfg env k t rem a st).2.1 =
      { st with embedding_errors := st.embedding_errors + rem,
                cb_failures := st.cb_failures + rem,
                dlq := if env.dlqWriteOk then
                    dlqUpsert st.dlq k t (errMsg (respAt env (a + rem - 1))) env.now
                  else st.dlq } ∧
    sleepsOf (retryLoop cfg env k t rem a st).2.2 =
      (List.range (rem - 1)).map (fun j => sleepVal cfg env (a + j)) ∧
    (retryLoop cfg env k t rem a st).2.2.countP isInferCall = rem := by
  intro rem
  induction rem with
  | zero => intro a st h; omega
  | succ r ih =>
    intro a st _ hf
    have hr : respVec (respAt env a) = none := hf a (le_refl a) (by omega)
    cases r with
    | zero =>
      rw [retryLoop_last_fail st hr]
      refine ⟨rfl, by simp, ?_, ?_⟩
      · cases hw : env.dlqWriteOk <;> simp [sleepsOf, hw]
      · cases hw : env.dlqWriteOk <;> simp [List.countP_cons, isInferCall, hw]
    | succ r' =>
      rw [retryLoop_step_fail r' st hr]
      obtain ⟨ih1, ih2, ih3, ih4⟩ := ih (a + 1)
        { st with embedding_errors := st.embedding_errors + 1,
                  cb_failures := st.cb_failures + 1 }
        (by omega) (fun j hj1 hj2 => hf j (by omega) (by omega))
      refine ⟨ih1, ?_, ?_, ?_⟩
      · rw [ih2]
        have harith : a + 1 + (r' + 1) - 1 = a + (r' + 1 + 1) - 1 := by omega
        ext <;> (try simp [harith]) <;> (try omega)
      · have harith : ∀ j, a + (j + 1) = a + 1 + j := fun j => by omega
        simp only [sleepsOf, List.filterMap_cons]
        rw [show (r' + 1 + 1 - 1) = r' + 1 from by omega, List.range_succ_eq_map,
          List.map_cons, List.map_map]
        simp only [sleepsOf] at ih3
        rw [show (r' + 1 - 1) = r' from by omega] at ih3
        rw [ih3]
        refine congrArg₂ _ (by rw [Nat.add_zero]) ?_
        refine List.map_congr_left fun j hj => ?_
        simp [Function.comp, harith j]
      · simp [List.countP_cons, isInferCall, ih4]

theorem retryLoop_success_at (cfg : Config) (env : EmbedEnv) (k t : List Char) :
    ∀ m rem a st (v : List Int), m < rem →
    (∀ j, a ≤ j → j < a + m → respVec (respAt env j) = none) →
    respVec (respAt env (a + m)) = some v →
    (retryLoop cfg env k t rem a st).1 = some v ∧
    (retryLoop cfg env k t rem a st).2.1 =
      { st with
          cache := if env.cacheWriteOk then
              cacheInsert st.cache k ⟨v, cfg.expected_embed_model, v.length⟩
            else st.cache,
          cb_failures := 0,
          embeddings_generated := st.embeddings_generated + 1,
          embedding_errors := st.embedding_errors + m } ∧
    sleepsOf (retryLoop cfg env k t rem a st).2.2 =
      (List.range m).map (fun j => sleepVal cfg env (a + j)) ∧
    (retryLoop cfg env k t rem a st).2.2.countP isInferCall = m + 1 := by
  intro m
  induction m with
  | zero =>
    intro rem a st v hlt hf hsucc
    rw [Nat.add_zero] at hsucc
    cases rem with
    | zero => omega
    | succ r =>
      rw [retryLoop_success r st hsucc]
      refine ⟨rfl, by simp, ?_, ?_⟩
      · cases hw : env.cacheWriteOk <;> simp [sleepsOf, hw]
      · cases hw : env.cacheWriteOk <;> simp [List.countP_cons, isInferCall, hw]
  | succ m' ih =>
    intro rem a st v hlt hf hsucc
    have hr : respVec (respAt env a) = none := hf a (le_refl a) (by omega)
    cases rem with
    | zero => omega
    | succ rr =>
      cases rr with
      | zero => omega
      | succ r'' =>
        rw [retryLoop_step_fail r'' st hr]
        obtain ⟨ih1, ih2, ih3, ih4⟩ := ih (r'' + 1) (a + 1)
          { st with embedding_errors := st.embedding_errors + 1,
                    cb_failures := st.cb_failures + 1 } v
          (by omega) (fun j hj1 hj2 => hf j (by omega) (by omega))
          (by rw [show a + 1 + m' = a + (m' + 1) from by omega]; exact hsucc)
        refine ⟨ih1, ?_, ?_, ?_⟩
        · rw [ih2]
          ext
          all_goals try simp
          all_goals omega
        · have harith : ∀ j, a + (j + 1) = a + 1 + j := fun j => by omega
          simp only [sleepsOf, List.filterMap_cons]
          rw [List.range_succ_eq_map, List.map_cons, List.map_map]
          simp only [sleepsOf] at ih3
          rw [ih3]
          refine congrArg₂ _ (by rw [Nat.add_zero]) ?_
          refine List.map_congr_left fun j hj => ?_
          simp [Function.comp, harith j]
        · simp [List.countP_cons, isInferCall, ih4]

theorem cacheInsert_absent {c : List (List Char × CacheEntry)} {k : List Char}
    (e : CacheEntry) (h : alistFind k c = none) :
    cacheInsert c k e = (k, e) :: c := by
  rw [cacheInsert, h]

theorem alistFind_map_update_ne {V : Type} {k k' : List Char} (f : V → V)
    (d : List (List Char × V)) (hne : k' ≠ k) :
    alistFind k' (d.map fun p => if p.1 = k then (p.1, f p.2) else p) =
      alistFind k' d := by
  induction d with
  | nil => rfl
  | cons p rest ih =>
    by_cases hp : p.1 = k
    · rw [List.map_cons, if_pos hp, alistFind, alistFind,
        if_neg (by rw [hp]; exact fun h => hne h.symm),
        if_neg (by rw [hp]; exact fun h => hne h.symm)]
      exact ih
    · rw [List.map_cons, if_neg hp, alistFind, alistFind]
      by_cases hp' : p.1 = k'
      · rw [if_pos hp', if_pos hp']
      · rw [if_neg hp', if_neg hp']
        exact ih

theorem dlqUpsert_frame {d : List (List Char × DlqEntry)} {k k' t : List Char}
    {err : String} {now : Nat} (hne : k' ≠ k) :
    alistFind k' (dlqUpsert d k t err now) = alistFind k' d := by
  cases hf : alistFind k d with
  | none =>
    simp only [dlqUpsert, hf, alistFind]
    rw [if_neg (Ne.symm hne)]
  | some e =>
    simp only [dlqUpsert, hf]
    exact alistFind_map_update_ne
      (fun v => ⟨v.text, err, v.attempts + 1, now⟩) d hne

theorem retryLoop_cache_written (cfg : Config) (env : EmbedEnv) (k t : List Char) :
    ∀ rem a st v, (retryLoop cfg env k t rem a st).1 = some v →
    env.cacheWriteOk = true → alistFind k st.cache = none →
    alistFind k (retryLoop cfg env k t rem a st).2.1.cache =
      some ⟨v, cfg.expected_embed_model, v.length⟩ := by
  intro rem
  induction rem with
  | zero => intro a st v hv; rw [retryLoop_zero] at hv; exact absurd hv (by simp)
  | succ r ih =>
    intro a st v hv hw habs
    cases hr : respVec (respAt env a) with
    | some w =>
      rw [retryLoop_success r st hr] at hv ⊢
      have hwv : w = v := by simpa using hv
      subst hwv
      simp only [hw, if_true]
      rw [cacheInsert_absent _ habs, alistFind, if_pos rfl]
    | none =>
      cases r with
      | zero =>
        rw [retryLoop_last_fail st hr] at hv
        exact absurd hv (by simp)
      | succ r' =>
        rw [retryLoop_step_fail r' st hr] at hv ⊢
        exact ih (a + 1) _ v hv hw habs

theorem retryLoop_core_congr (cfg : Config) (env : EmbedEnv) (k t : List Char) :
    ∀ rem a (st₁ st₂ : EngineState), coreOf st₁ = coreOf st₂ →
    (retryLoop cfg env k t rem a st₁).1 = (retryLoop cfg env k t rem a st₂).1 ∧
    coreOf (retryLoop cfg env k t rem a st₁).2.1 =
      coreOf (retryLoop cfg env k t rem a st₂).2.1 ∧
    (retryLoop cfg env k t rem a st₁).2.2 = (retryLoop cfg env k t rem a st₂).2.2 := by
  intro rem
  induction rem with
  | zero => intro a st₁ st₂ h; rw [retryLoop_zero, retryLoop_zero]; exact ⟨rfl, h, rfl⟩
  | succ r ih =>
    intro a st₁ st₂ h
    simp only [coreOf, Prod.mk.injEq] at h
    obtain ⟨h1, h2, h3, h4, h5, h6, h7⟩ := h
    cases hr : respVec (respAt env a) with
    | some w =>
      rw [retryLoop_success r st₁ hr, retryLoop_success r st₂ hr]
      refine ⟨rfl, ?_, rfl⟩
      simp [coreOf, h1, h3, h4, h5, h6, h7]
    | none =>
      cases r with
      | zero =>
        rw [retryLoop_last_fail st₁ hr, retryLoop_last_fail st₂ hr]
        refine ⟨rfl, ?_, rfl⟩
        simp [coreOf, h1, h2, h3, h4, h5, h6, h7]
      | succ r' =>
        rw [retryLoop_step_fail r' st₁ hr, retryLoop_step_fail r' st₂ hr]
        obtain ⟨g1, g2, g3⟩ := ih (a + 1)
          { st₁ with embedding_errors := st₁.embedding_errors + 1,
                     cb_failures := st₁.cb_failures + 1 }
          { st₂ with embedding_errors := st₂.embedding_errors + 1,
                     cb_failures := st₂.cb_failures + 1 }
          (by simp [coreOf, h1, h2, h3, h4, h5, h6, h7])
        exact ⟨g1, g2, by rw [g3]⟩

theorem retryLoop_dlq_some (cfg : Config) (env : EmbedEnv) (k t : List Char) :
    ∀ rem a st v, (retryLoop cfg env k t rem a st).1 = some v →
    (retryLoop cfg env k t rem a st).2.1.dlq = st.dlq := by
  intro rem
  induction rem with
  | zero => intro a st v hv; rw [retryLoop_zero] at hv; exact absurd hv (by simp)
  | succ r ih =>
    intro a st v hv
    cases hr : respVec (respAt env a) with
    | some w => rw [retryLoop_success r st hr]
    | none =>
      cases r with
      | zero =>
        rw [retryLoop_last_fail st hr] at hv
        exact absurd hv (by simp)
      | succ r' =>
        rw [retryLoop_step_fail r' st hr] at hv ⊢
        exact ih (a + 1) _ v hv

theorem retryLoop_dlq_frame (cfg : Config) (env : EmbedEnv) (k t : List Char) :
    ∀ rem a st k', k' ≠ k →
    alistFind k' (retryLoop cfg env k t rem a st).2.1.dlq = alistFind k' st.dlq := by
  intro rem
  induction rem with
  | zero => intro a st k' _; rw [retryLoop_zero]
  | succ r ih =>
    intro a st k' hne
    cases hr : respVec (respAt env a) with
    | some w => rw [retryLoop_success r st hr]
    | none =>
      cases r with
      | zero =>
        rw [retryLoop_last_fail st hr]
        cases hw : env.dlqWriteOk
        · simp
        · simp only [hw, if_true]
          exact dlqUpsert_frame hne
      | succ r' =>
        rw [retryLoop_step_fail r' st hr]
        exact ih (a + 1) _ k' hne

theorem retryLoop_none_dlq (cfg : Config) (env : EmbedEnv) (k t : List Char) :
    ∀ rem a st, 1 ≤ rem → (retryLoop cfg env k t rem a st).1 = none →
    env.dlqWriteOk = true →
    ∃ err, (retryLoop cfg env k t rem a st).2.1.dlq =
      dlqUpsert st.dlq k t err env.now := by
  intro rem
  induction rem with
  | zero => intro a st h; omega
  | succ r ih =>
    intro a st _ hv hd
    cases hr : respVec (respAt env a) with
    | some w =>
      rw [retryLoop_success r st hr] at hv
      exact absurd hv (by simp)
    | none =>
      cases r with
      | zero =>
        rw [retryLoop_last_fail st hr]
        refine ⟨errMsg (respAt env a), ?_⟩
        simp [hd]
      | succ r' =>
        rw [retryLoop_step_fail r' st hr] at hv ⊢
        exact ih (a + 1) _ (by omega) hv hd

/-! ## C8: the retry loop -/

/-- C8: over one `generate_embedding` retry phase (entered with
`rem = attempts`, default 3): at most `attempts` inference calls are issued;
every backoff sleep is `min(base_ms * 2 ^ attempt, max_ms)` milliseconds plus
a jitter of at most 10% of that delay; when every attempt fails, each failure
increments the error stat and the consecutive-failure counter (by `attempts`
in total) and the final attempt upserts the DLQ; when attempt `m` is the first
success, the failure counter is reset to 0, the vector is written through to
the cache (best-effort, guarded by the write flag), the success stat is
incremented, and the vector is returned. -/
theorem retry_loop_spec (cfg : Config) (env : EmbedEnv) (k t : List Char)
    (st : EngineState) (hrand : ∀ a, 0 ≤ env.rand a ∧ env.rand a ≤ 1) :
    CONFIG_DEFAULTS.retry_policy.attempts = 3 ∧
    (retryLoop cfg env k t cfg.retry_policy.attempts 0 st).2.2.countP isInferCall ≤
      cfg.retry_policy.attempts ∧
    (∀ q ∈ sleepsOf (retryLoop cfg env k t cfg.retry_policy.attempts 0 st).2.2,
      ∃ a, q = sleepVal cfg env a ∧ (minDelay cfg a : ℚ) ≤ q ∧
        q ≤ (minDelay cfg a : ℚ) + (minDelay cfg a : ℚ) / 10) ∧
    (1 ≤ cfg.retry_policy.attempts →
      (∀ j, j < cfg.retry_policy.attempts → respVec (respAt env j) = none) →
      (retryLoop cfg env k t cfg.retry_policy.attempts 0 st).1 = none ∧
      (retryLoop cfg env k t cfg.retry_policy.attempts 0 st).2.1 =
        { st with
            embedding_errors := st.embedding_errors + cfg.retry_policy.attempts,
            cb_failures := st.cb_failures + cfg.retry_policy.attempts,
            dlq := if env.dlqWriteOk then
                dlqUpsert st.dlq k t
                  (errMsg (respAt env (cfg.retry_policy.attempts - 1))) env.now
              else st.dlq } ∧
      sleepsOf (retryLoop cfg env k t cfg.retry_policy.attempts 0 st).2.2 =
        (List.range (cfg.retry_policy.attempts - 1)).map
          (fun j => sleepVal cfg env j)) ∧
    (∀ m (v : List Int), m < cfg.retry_policy.attempts →
      (∀ j, j < m → respVec (respAt env j) = none) →
      respVec (respAt env m) = some v →
      (retryLoop cfg env k t cfg.retry_policy.attempts 0 st).1 = some v ∧
      (retryLoop cfg env k t cfg.retry_policy.attempts 0 st).2.1 =
        { st with
            cache := if env.cacheWriteOk then
                cacheInsert st.cache k ⟨v, cfg.expected_embed_model, v.length⟩
              else st.cache,
            cb_failures := 0,
            embeddings_generated := st.embeddings_generated + 1,
            embedding_errors := st.embedding_errors + m } ∧
      sleepsOf (retryLoop cfg env k t cfg.retry_policy.attempts 0 st).2.2 =
        (List.range m).map (fun j => sleepVal cfg env j) ∧
      (retryLoop cfg env k t cfg.retry_policy.attempts 0 st).2.2.countP isInferCall =
        m + 1) := by
  refine ⟨rfl, retryLoop_count cfg env k t _ 0 st, ?_, ?_, ?_⟩
  · intro q hq
    obtain ⟨j, hj⟩ := retryLoop_sleep_mem cfg env k t _ 0 st q hq
    have hdiv : (0 : ℚ) ≤ (minDelay cfg j : ℚ) / 10 :=
      div_nonneg (Nat.cast_nonneg _) (by norm_num)
    refine ⟨j, hj, ?_, ?_⟩
    · rw [hj, sleepVal]
      exact le_add_of_nonneg_right (mul_nonneg (hrand j).1 hdiv)
    · rw [hj, sleepVal]
      exact add_le_add_left (mul_le_of_le_one_left hdiv (hrand j).2) _
  · intro h1 hf
    obtain ⟨g1, g2, g3, _⟩ := retryLoop_all_fail cfg env k t cfg.retry_policy.attempts
      0 st h1 (fun j _ hj2 => hf j (by omega))
    refine ⟨g1, ?_, ?_⟩
    · rw [g2]
      simp
    · rw [g3]
      refine List.map_congr_left fun j _ => ?_
      rw [Nat.zero_add]
  · intro m v hm hf hsucc
    obtain ⟨g1, g2, g3, g4⟩ := retryLoop_success_at cfg env k t m
      cfg.retry_policy.attempts 0 st v hm (fun j _ hj2 => hf j (by omega))
      (by rw [Nat.zero_add]; exact hsucc)
    refine ⟨g1, g2, ?_, g4⟩
    rw [g3]
    refine List.map_congr_left fun j _ => ?_
    rw [Nat.zero_add]

/-- Witness for C8: with one transport error followed by a success, the
first-success case of `retry_loop_spec` applies at `m = 1` and the loop
returns `[2, 3]`. -/
theorem retry_loop_spec_witness :
    (∀ a, 0 ≤ envRetry.rand a ∧ envRetry.rand a ≤ 1) ∧
    (retryLoop CONFIG_DEFAULTS envRetry "k".toList "t".toList
      CONFIG_DEFAULTS.retry_policy.attempts 0 st0).1 = some [2, 3] := by
  have hrand : ∀ a, 0 ≤ envRetry.rand a ∧ envRetry.rand a ≤ 1 := by
    intro a
    constructor
    · show (0 : ℚ) ≤ 1 / 2
      norm_num
    · show (1 : ℚ) / 2 ≤ 1
      norm_num
  refine ⟨hrand, ?_⟩
  have h := retry_loop_spec CONFIG_DEFAULTS envRetry "k".toList "t".toList st0 hrand
  refine (h.2.2.2.2 1 [2, 3] (by decide) ?_ (by decide)).1
  intro j hj
  have hj0 : j = 0 := by omega
  rw [hj0]
  decide

theorem cool_cache (cfg : Config) (st : EngineState) :
    (_cool_if_cb_open cfg st).1.cache = st.cache := by
  rw [_cool_if_cb_open]
  split <;> rfl

theorem cool_dlq (cfg : Config) (st : EngineState) :
    (_cool_if_cb_open cfg st).1.dlq = st.dlq := by
  rw [_cool_if_cb_open]
  split <;> rfl

theorem cool_cache_comm (cfg : Config) (st : EngineState)
    (c' : List (List Char × CacheEntry)) :
    (_cool_if_cb_open cfg { st with cache := c' }).1 =
      { (_cool_if_cb_open cfg st).1 with cache := c' } ∧
    (_cool_if_cb_open cfg { st with cache := c' }).2 = (_cool_if_cb_open cfg st).2 := by
  rw [_cool_if_cb_open, _cool_if_cb_open]
  by_cases h : cfg.circuit_breaker.failure_threshold ≤ st.cb_failures
  · rw [if_pos h, if_pos h]
    exact ⟨rfl, rfl⟩
  · rw [if_neg h, if_neg h]
    exact ⟨rfl, rfl⟩

theorem retryLoop_readflag_irrel (cfg : Config) (env : EmbedEnv) (b : Bool)
    (k t : List Char) : ∀ rem a st,
    retryLoop cfg { env with cacheReadOk := b } k t rem a st =
      retryLoop cfg env k t rem a st := by
  intro rem
  induction rem with
  | zero => intro a st; rfl
  | succ r ih =>
    intro a st
    cases hr : respVec (respAt env a) with
    | some w =>
      rw [@retryLoop_success cfg { env with cacheReadOk := b } k t a w r st hr,
        @retryLoop_success cfg env k t a w r st hr]
    | none =>
      cases r with
      | zero =>
        rw [@retryLoop_last_fail cfg { env with cacheReadOk := b } k t a st hr,
          @retryLoop_last_fail cfg env k t a st hr]
        rfl
      | succ r' =>
        rw [@retryLoop_step_fail cfg { env with cacheReadOk := b } k t a r' st hr,
          @retryLoop_step_fail cfg env k t a r' st hr, ih]
        rfl

theorem generate_embedding_miss (cfg : Config) (env : EmbedEnv) (st : EngineState)
    (t : List Char) (hne : ¬normText t = [])
    (hmiss : (if env.cacheReadOk then alistFind (_hash_key (normText t)) st.cache
      else none) = none) :
    generate_embedding cfg env st t =
      ((retryLoop cfg env (_hash_key (normText t)) (normText t)
          cfg.retry_policy.attempts 0 (_cool_if_cb_open cfg st).1).1,
        (retryLoop cfg env (_hash_key (normText t)) (normText t)
          cfg.retry_policy.attempts 0 (_cool_if_cb_open cfg st).1).2.1,
        Ev.acquireToken :: Ev.cacheLookup (_hash_key (normText t)) ::
          ((_cool_if_cb_open cfg st).2 ++
            (retryLoop cfg env (_hash_key (normText t)) (normText t)
              cfg.retry_policy.attempts 0 (_cool_if_cb_open cfg st).1).2.2)) := by
  simp only [generate_embedding, hne, if_false, hmiss]

theorem generate_embedding_hit (cfg : Config) (env : EmbedEnv) (st : EngineState)
    (t : List Char) (e : CacheEntry) (hne : ¬normText t = [])
    (hro : env.cacheReadOk = true)
    (hfind : alistFind (_hash_key (normText t)) st.cache = some e) :
    generate_embedding cfg env st t =
      (some e.vector, { st with cache_hits := st.cache_hits + 1 },
        [Ev.acquireToken, Ev.cacheLookup (_hash_key (normText t)),
          Ev.cacheHit (_hash_key (normText t))]) := by
  simp only [generate_embedding, hne, if_false, hro, if_true, hfind]

/-! ## C7: cache unavailability and the embed request -/

/-- C7 counterexample: a cache-storage error does propagate out of embed. The
first statement of `generate_embedding` is the unguarded
`await self._ensure_cache_tables()` (sqlite connect + DDL with no try/except);
when that step cannot reach the store — live in a qdrant-only run where
`initialize()` skips table creation and the MVM.db path is unreachable — the
whole call returns the propagated sqlite error instead of any result, for an
ordinary input. -/
theorem cache_degradation_cex :
    envTablesFail.ensureTablesOk = false ∧
    generate_embedding_call CONFIG_DEFAULTS envTablesFail st0 "hi".toList =
      Except.error "sqlite3.OperationalError: unable to open database file" ∧
    ∀ r, generate_embedding_call CONFIG_DEFAULTS envTablesFail st0 "hi".toList ≠
      Except.ok r := by
  refine ⟨rfl, rfl, ?_⟩
  intro r h
  have he : generate_embedding_call CONFIG_DEFAULTS envTablesFail st0 "hi".toList =
      Except.error "sqlite3.OperationalError: unable to open database file" := rfl
  rw [he] at h
  exact Except.noConfusion h

/-- C7 (amended): the guarded cache operations never abort an embed request —
a failed cache read is treated as a cache miss (the request's result,
non-cache state, and trace are those of the same run against an empty cache
with a healthy reader, so the call proceeds through the breaker gate and retry
pipeline instead of aborting), and a failed cache write still returns the
vector (with the cache untouched) — and whenever the cache-table
initialization step succeeds, the full call returns normally, so no other
cache-storage error propagates out of embed; but a failure of that unguarded
initialization step itself does propagate out of embed as an exception. -/
theorem cache_degradation (cfg : Config) (env : EmbedEnv) (st : EngineState)
    (t : List Char) :
    (env.ensureTablesOk = true →
      generate_embedding_call cfg env st t =
        Except.ok (generate_embedding cfg env st t)) ∧
    (env.ensureTablesOk = false →
      generate_embedding_call cfg env st t =
        Except.error "sqlite3.OperationalError: unable to open database file") ∧
    (env.cacheReadOk = false →
      (generate_embedding cfg env st t).1 =
        (generate_embedding cfg { env with cacheReadOk := true }
          { st with cache := [] } t).1 ∧
      coreOf (generate_embedding cfg env st t).2.1 =
        coreOf (generate_embedding cfg { env with cacheReadOk := true }
          { st with cache := [] } t).2.1 ∧
      (generate_embedding cfg env st t).2.2 =
        (generate_embedding cfg { env with cacheReadOk := true }
          { st with cache := [] } t).2.2) ∧
    (∀ (k t' : List Char) (rem a : Nat) (st' : EngineState) (v : List Int),
      env.cacheWriteOk = false → respVec (respAt env a) = some v →
      retryLoop cfg env k t' (rem + 1) a st' =
        (some v,
          { st' with cb_failures := 0,
                     embeddings_generated := st'.embeddings_generated + 1 },
          [Ev.inferCall t'])) := by
  refine ⟨?_, ?_, ?_, ?_⟩
  · intro h
    simp [generate_embedding_call, _ensure_cache_tables, h]
  · intro h
    simp [generate_embedding_call, _ensure_cache_tables, h]
  · intro hro
    by_cases hempty : normText t = []
    · refine ⟨?_, ?_, ?_⟩ <;> simp [generate_embedding, hempty, coreOf]
    · have hm1 : (if env.cacheReadOk then alistFind (_hash_key (normText t)) st.cache
          else none) = none := by rw [hro]; rfl
      have hm2 : (if ({ env with cacheReadOk := true } : EmbedEnv).cacheReadOk then
          alistFind (_hash_key (normText t))
            ({ st with cache := [] } : EngineState).cache else none) = none := rfl
      rw [generate_embedding_miss cfg env st t hempty hm1,
        generate_embedding_miss cfg { env with cacheReadOk := true }
          { st with cache := [] } t hempty hm2]
      obtain ⟨hcool1, hcool2⟩ := cool_cache_comm cfg st []
      rw [hcool1, hcool2,
        retryLoop_readflag_irrel cfg env true (_hash_key (normText t)) (normText t)]
      obtain ⟨g1, g2, g3⟩ := retryLoop_core_congr cfg env (_hash_key (normText t))
        (normText t) cfg.retry_policy.attempts 0
        { (_cool_if_cb_open cfg st).1 with cache := [] } (_cool_if_cb_open cfg st).1
        rfl
      exact ⟨g1.symm, g2.symm, by rw [g3]⟩
  · intro k t' rem a st' v hw hsucc
    rw [retryLoop_success rem st' hsucc, hw]
    rfl

/-! ## C3: idempotence via the embedding cache -/

/-- C3: if a first `generate_embedding` call on nonempty-normalizing text
succeeds and writes its vector to the cache (write flag healthy, key
previously absent), then a second call with identically-normalizing text
returns the same vector via a cache hit: its trace is exactly the token
acquisition, the cache lookup, and the cache hit — so it issues zero
additional inference calls, and the cache check occurs before the
circuit-breaker gate (no `cbSleep`) and before any network call. -/
theorem cache_idempotence (cfg : Config) (env1 env2 : EmbedEnv) (st : EngineState)
    (t1 t2 : List Char) (v : List Int) (st1 : EngineState) (tr1 : List Ev)
    (hne : ¬normText t1 = [])
    (hw : env1.cacheWriteOk = true)
    (habs : alistFind (_hash_key (normText t1)) st.cache = none)
    (hrun : generate_embedding cfg env1 st t1 = (some v, st1, tr1))
    (hnorm : normText t2 = normText t1)
    (hro : env2.cacheReadOk = true) :
    generate_embedding cfg env2 st1 t2 =
      (some v, { st1 with cache_hits := st1.cache_hits + 1 },
        [Ev.acquireToken, Ev.cacheLookup (_hash_key (normText t1)),
          Ev.cacheHit (_hash_key (normText t1))]) ∧
    (∀ p, Ev.inferCall p ∉ (generate_embedding cfg env2 st1 t2).2.2) ∧
    (∀ s, Ev.cbSleep s ∉ (generate_embedding cfg env2 st1 t2).2.2) := by
  have hmiss : (if env1.cacheReadOk then alistFind (_hash_key (normText t1)) st.cache
      else none) = none := by
    cases env1.cacheReadOk <;> simp [habs]
  rw [generate_embedding_miss cfg env1 st t1 hne hmiss] at hrun
  simp only [Prod.mk.injEq] at hrun
  obtain ⟨hr1, hr2, _⟩ := hrun
  have hcoolabs : alistFind (_hash_key (normText t1))
      (_cool_if_cb_open cfg st).1.cache = none := by
    rw [cool_cache]
    exact habs
  have hcache : alistFind (_hash_key (normText t1)) st1.cache =
      some ⟨v, cfg.expected_embed_model, v.length⟩ := by
    rw [← hr2]
    exact retryLoop_cache_written cfg env1 (_hash_key (normText t1)) (normText t1)
      cfg.retry_policy.attempts 0 (_cool_if_cb_open cfg st).1 v hr1 hw hcoolabs
  have hne2 : ¬normText t2 = [] := by rw [hnorm]; exact hne
  have hfind2 : alistFind (_hash_key (normText t2)) st1.cache =
      some ⟨v, cfg.expected_embed_model, v.length⟩ := by
    rw [hnorm]
    exact hcache
  have hhit := generate_embedding_hit cfg env2 st1 t2
    ⟨v, cfg.expected_embed_model, v.length⟩ hne2 hro hfind2
  rw [hnorm] at hhit
  refine ⟨hhit, ?_, ?_⟩
  · intro p
    rw [hhit]
    simp
  · intro s
    rw [hhit]
    simp

/-- Witness for C3: embedding `"hi there"` succeeds and caches `[5, 7]`; a
second call with `" hi  there "` (same normalized form) hits the cache and
returns the same vector with no inference call. -/
theorem cache_idempotence_witness :
    (¬normText keyHi = [] ∧ envA.cacheWriteOk = true ∧
      alistFind (_hash_key (normText keyHi)) st0.cache = none ∧
      normText " hi  there ".toList = normText keyHi ∧
      envA.cacheReadOk = true) ∧
    generate_embedding CONFIG_DEFAULTS envA
      { st0 with cache := [(keyHi, entryHi)], embeddings_generated := 1 }
      " hi  there ".toList =
      (some [5, 7],
        { st0 with cache := [(keyHi, entryHi)], embeddings_generated := 1,
                   cache_hits := 1 },
        [Ev.acquireToken, Ev.cacheLookup keyHi, Ev.cacheHit keyHi]) := by
  refine ⟨⟨by decide, rfl, by decide, by decide, rfl⟩, ?_⟩
  have h := (cache_idempotence CONFIG_DEFAULTS envA envA st0
    keyHi " hi  there ".toList [5, 7]
    { st0 with cache := [(keyHi, entryHi)], embeddings_generated := 1 }
    [Ev.acquireToken, Ev.cacheLookup keyHi, Ev.inferCall keyHi, Ev.cacheWrite keyHi]
    (by decide) rfl (by decide) (by decide) (by decide) rfl).1
  rw [h]
  decide

/-! ## Embed-level DLQ lemmas and batch lemmas -/

theorem dlqUpsert_absent {d : List (List Char × DlqEntry)} {k tx : List Char}
    {err : String} {now : Nat} (h : alistFind k d = none) :
    dlqUpsert d k tx err now = (k, ⟨tx, err, 1, now⟩) :: d := by
  rw [dlqUpsert, h]

theorem generate_embedding_dlq_frame (cfg : Config) (env : EmbedEnv)
    (st : EngineState) (t : List Char) (k' : List Char) (hne : k' ≠ keyOf t) :
    alistFind k' (generate_embedding cfg env st t).2.1.dlq = alistFind k' st.dlq := by
  by_cases hempty : normText t = []
  · simp [generate_embedding, hempty]
  · cases hm : (if env.cacheReadOk then alistFind (_hash_key (normText t)) st.cache
      else none) with
    | some e =>
      have hro : env.cacheReadOk = true := by
        cases h : env.cacheReadOk
        · rw [h] at hm; exact absurd hm (by simp)
        · rfl
      rw [hro] at hm
      have hfind : alistFind (_hash_key (normText t)) st.cache = some e := by
        simpa using hm
      rw [generate_embedding_hit cfg env st t e hempty hro hfind]
    | none =>
      rw [generate_embedding_miss cfg env st t hempty hm]
      have h1 := retryLoop_dlq_frame cfg env (_hash_key (normText t)) (normText t)
        cfg.retry_policy.attempts 0 (_cool_if_cb_open cfg st).1 k' hne
      rw [h1, cool_dlq]

theorem generate_embedding_none_dlq (cfg : Config) (env : EmbedEnv)
    (st : EngineState) (t : List Char) (hatt : 1 ≤ cfg.retry_policy.attempts)
    (hres : (generate_embedding cfg env st t).1 = none)
    (hdw : env.dlqWriteOk = true) :
    ∃ err, (generate_embedding cfg env st t).2.1.dlq =
      dlqUpsert st.dlq (keyOf t) (normText t) err env.now := by
  by_cases hempty : normText t = []
  · simp [generate_embedding, hempty] at hres
  · cases hm : (if env.cacheReadOk then alistFind (_hash_key (normText t)) st.cache
      else none) with
    | some e =>
      have hro : env.cacheReadOk = true := by
        cases h : env.cacheReadOk
        · rw [h] at hm; exact absurd hm (by simp)
        · rfl
      rw [hro] at hm
      have hfind : alistFind (_hash_key (normText t)) st.cache = some e := by
        simpa using hm
      rw [generate_embedding_hit cfg env st t e hempty hro hfind] at hres
      exact absurd hres (by simp)
    | none =>
      rw [generate_embedding_miss cfg env st t hempty hm] at hres ⊢
      obtain ⟨err, herr⟩ := retryLoop_none_dlq cfg env (_hash_key (normText t))
        (normText t) cfg.retry_policy.attempts 0 (_cool_if_cb_open cfg st).1 hatt
        hres hdw
      refine ⟨err, ?_⟩
      rw [herr, cool_dlq]
      rfl

theorem batchLoop_nil (cfg : Config) (envOf : Nat → EmbedEnv) (i : Nat)
    (st : EngineState) : batchLoop cfg envOf [] i st = ([], [], [], st, []) := rfl

theorem batchLoop_cons_none {cfg : Config} {envOf : Nat → EmbedEnv}
    {row : WorkItem} (rest : List WorkItem) (i : Nat) (st : EngineState)
    (h : (generate_embedding cfg (envOf i) st row.text).1 = none) :
    batchLoop cfg envOf (row :: rest) i st =
      ((batchLoop cfg envOf rest (i + 1)
          (generate_embedding cfg (envOf i) st row.text).2.1).1,
        (batchLoop cfg envOf rest (i + 1)
          (generate_embedding cfg (envOf i) st row.text).2.1).2.1,
        row.rowid :: (batchLoop cfg envOf rest (i + 1)
          (generate_embedding cfg (envOf i) st row.text).2.1).2.2.1,
        (batchLoop cfg envOf rest (i + 1)
          (generate_embedding cfg (envOf i) st row.text).2.1).2.2.2.1,
        (generate_embedding cfg (envOf i) st row.text).2.2 ++
          (batchLoop cfg envOf rest (i + 1)
            (generate_embedding cfg (envOf i) st row.text).2.1).2.2.2.2) := by
  simp only [batchLoop, h]

theorem batchLoop_cons_some {cfg : Config} {envOf : Nat → EmbedEnv}
    {row : WorkItem} (rest : List WorkItem) (i : Nat) (st : EngineState)
    (v : List Int) (h : (generate_embedding cfg (envOf i) st row.text).1 = some v) :
    batchLoop cfg envOf (row :: rest) i st =
      ((⟨row.rowid, row.bubble_id, row.composer_id, row.created_at_utc, row.text,
          row.bubble_type_name, v⟩ : VectorRecord) ::
          (batchLoop cfg envOf rest (i + 1)
            (generate_embedding cfg (envOf i) st row.text).2.1).1,
        row.rowid :: (batchLoop cfg envOf rest (i + 1)
          (generate_embedding cfg (envOf i) st row.text).2.1).2.1,
        (batchLoop cfg envOf rest (i + 1)
          (generate_embedding cfg (envOf i) st row.text).2.1).2.2.1,
        (batchLoop cfg envOf rest (i + 1)
          (generate_embedding cfg (envOf i) st row.text).2.1).2.2.2.1,
        (generate_embedding cfg (envOf i) st row.text).2.2 ++
          (batchLoop cfg envOf rest (i + 1)
            (generate_embedding cfg (envOf i) st row.text).2.1).2.2.2.2) := by
  simp only [batchLoop, h]

theorem batchResults_cons (cfg : Config) (envOf : Nat → EmbedEnv) (row : WorkItem)
    (rest : List WorkItem) (i : Nat) (st : EngineState) :
    batchResults cfg envOf (row :: rest) i st =
      (generate_embedding cfg (envOf i) st row.text).1 ::
        batchResults cfg envOf rest (i + 1)
          (generate_embedding cfg (envOf i) st row.text).2.1 := rfl

theorem batchLoop_state (cfg : Config) (envOf : Nat → EmbedEnv) (row : WorkItem)
    (rest : List WorkItem) (i : Nat) (st : EngineState) :
    (batchLoop cfg envOf (row :: rest) i st).2.2.2.1 =
      (batchLoop cfg envOf rest (i + 1)
        (generate_embedding cfg (envOf i) st row.text).2.1).2.2.2.1 := by
  cases h : (generate_embedding cfg (envOf i) st row.text).1 with
  | none => rw [batchLoop_cons_none rest i st h]
  | some v => rw [batchLoop_cons_some rest i st v h]

theorem batchLoop_dlq_frame (cfg : Config) (envOf : Nat → EmbedEnv) :
    ∀ (rows : List WorkItem) (i : Nat) (st : EngineState) (k' : List Char),
    (∀ r ∈ rows, k' ≠ keyOf r.text) →
    alistFind k' (batchLoop cfg envOf rows i st).2.2.2.1.dlq =
      alistFind k' st.dlq := by
  intro rows
  induction rows with
  | nil => intro i st k' _; rw [batchLoop_nil]
  | cons row rest ih =>
    intro i st k' hk
    rw [batchLoop_state,
      ih (i + 1) (generate_embedding cfg (envOf i) st row.text).2.1 k'
        (fun r hr => hk r (List.mem_cons_of_mem row hr)),
      generate_embedding_dlq_frame cfg (envOf i) st row.text k'
        (hk row (List.mem_cons_self row rest))]

theorem vectorize_batch_handed (cfg : Config) (envOf : Nat → EmbedEnv) (bs : Nat)
    (queue : List WorkItem) (st : EngineState) :
    (vectorize_batch cfg envOf bs queue st).handed =
      (batchLoop cfg envOf (batchRows bs queue) 0 st).1 := rfl

theorem vectorize_batch_succIds (cfg : Config) (envOf : Nat → EmbedEnv) (bs : Nat)
    (queue : List WorkItem) (st : EngineState) :
    (vectorize_batch cfg envOf bs queue st).succIds =
      (batchLoop cfg envOf (batchRows bs queue) 0 st).2.1 := rfl

theorem vectorize_batch_queue (cfg : Config) (envOf : Nat → EmbedEnv) (bs : Nat)
    (queue : List WorkItem) (st : EngineState) :
    (vectorize_batch cfg envOf bs queue st).queue =
      queue.map (fun q =>
        if q.rowid ∈ (batchLoop cfg envOf (batchRows bs queue) 0 st).2.1 then
          { q with processed := true } else q) := rfl

theorem vectorize_batch_engine (cfg : Config) (envOf : Nat → EmbedEnv) (bs : Nat)
    (queue : List WorkItem) (st : EngineState) :
    (vectorize_batch cfg envOf bs queue st).engine =
      (batchLoop cfg envOf (batchRows bs queue) 0 st).2.2.2.1 := rfl

theorem batchLoop_ids (cfg : Config) (envOf : Nat → EmbedEnv) :
    ∀ (rows : List WorkItem) (i : Nat) (st : EngineState),
    (batchLoop cfg envOf rows i st).2.1 =
      ((rows.zip (batchResults cfg envOf rows i st)).filter
        (fun p => p.2.isSome)).map (fun p => p.1.rowid) := by
  intro rows
  induction rows with
  | nil => intro i st; rfl
  | cons row rest ih =>
    intro i st
    rw [batchResults_cons, List.zip_cons_cons]
    cases h : (generate_embedding cfg (envOf i) st row.text).1 with
    | none =>
      rw [batchLoop_cons_none rest i st h, List.filter_cons_of_neg (by simp)]
      exact ih (i + 1) _
    | some v =>
      rw [batchLoop_cons_some rest i st v h, List.filter_cons_of_pos (by simp),
        List.map_cons]
      exact congrArg _ (ih (i + 1) _)

theorem batchLoop_handed (cfg : Config) (envOf : Nat → EmbedEnv) :
    ∀ (rows : List WorkItem) (i : Nat) (st : EngineState) (p : WorkItem × Option (List Int)),
    p ∈ rows.zip (batchResults cfg envOf rows i st) →
    ∀ v, p.2 = some v →
    ∃ vr ∈ (batchLoop cfg envOf rows i st).1,
      vr.rowid = p.1.rowid ∧ vr.vector = v ∧ vr.text = p.1.text := by
  intro rows
  induction rows with
  | nil => intro i st p hp; simp at hp
  | cons row rest ih =>
    intro i st p hp v hv
    rw [batchResults_cons, List.zip_cons_cons] at hp
    rcases List.mem_cons.mp hp with h1 | h2
    · subst h1
      have hg : (generate_embedding cfg (envOf i) st row.text).1 = some v := hv
      rw [batchLoop_cons_some rest i st v hg]
      exact ⟨⟨row.rowid, row.bubble_id, row.composer_id, row.created_at_utc, row.text,
        row.bubble_type_name, v⟩, List.mem_cons_self _ _, rfl, rfl, rfl⟩
    · cases hg : (generate_embedding cfg (envOf i) st row.text).1 with
      | none =>
        rw [batchLoop_cons_none rest i st hg]
        exact ih (i + 1) _ p h2 v hv
      | some w =>
        rw [batchLoop_cons_some rest i st w hg]
        obtain ⟨vr, hvr, hfields⟩ := ih (i + 1) _ p h2 v hv
        exact ⟨vr, List.mem_cons_of_mem _ hvr, hfields⟩

theorem zip_rowid_unique :
    ∀ (rows : List WorkItem) {β : Type} (res : List β),
    ((rows.map fun r => r.rowid).Nodup) →
    ∀ p ∈ rows.zip res, ∀ p' ∈ rows.zip res, p.1.rowid = p'.1.rowid → p = p' := by
  intro rows
  induction rows with
  | nil => intro β res _ p hp; simp at hp
  | cons row rest ih =>
    intro β res hn p hp p' hp' heq
    cases res with
    | nil => simp at hp
    | cons b bs =>
      rw [List.map_cons, List.nodup_cons] at hn
      rw [List.zip_cons_cons] at hp hp'
      rcases List.mem_cons.mp hp with h1 | h1 <;> rcases List.mem_cons.mp hp' with h2 | h2
      · rw [h1, h2]
      · exfalso
        apply hn.1
        have hm := (List.of_mem_zip h2).1
        subst h1
        exact List.mem_map.mpr ⟨p'.1, hm, heq.symm⟩
      · exfalso
        apply hn.1
        have hm := (List.of_mem_zip h1).1
        subst h2
        exact List.mem_map.mpr ⟨p.1, hm, heq⟩
      · exact ih bs hn.2 p h1 p' h2 heq

theorem zip_map_self {α β : Type} (f : α → β) :
    ∀ (l : List α) (p : α × β), p ∈ l.zip (l.map f) → p.2 = f p.1 := by
  intro l
  induction l with
  | nil => intro p hp; simp at hp
  | cons a l ih =>
    intro p hp
    rw [List.map_cons, List.zip_cons_cons] at hp
    rcases List.mem_cons.mp hp with h1 | h2
    · rw [h1]
    · exact ih p h2

theorem batchRows_mem {bs : Nat} {queue : List WorkItem} {r : WorkItem}
    (hr : r ∈ batchRows bs queue) : r ∈ queue ∧ r.processed = false := by
  have h1 : r ∈ queue.filter (fun q => !q.processed) := List.mem_of_mem_take hr
  refine ⟨List.mem_of_mem_filter h1, ?_⟩
  have h2 := List.of_mem_filter h1
  simpa using h2

theorem batchRows_nodup {bs : Nat} {queue : List WorkItem}
    (hn : (queue.map fun q => q.rowid).Nodup) :
    ((batchRows bs queue).map fun q => q.rowid).Nodup := by
  refine List.Nodup.sublist (List.Sublist.map _ ?_) hn
  exact List.Sublist.trans (List.take_sublist _ _) (List.filter_sublist _)

theorem batchLoop_dlq (cfg : Config) (envOf : Nat → EmbedEnv)
    (hatt : 1 ≤ cfg.retry_policy.attempts) :
    ∀ (rows : List WorkItem) (i : Nat) (st : EngineState),
    ((rows.map fun r => keyOf r.text).Nodup) →
    (∀ r ∈ rows, alistFind (keyOf r.text) st.dlq = none) →
    (∀ j, (envOf j).dlqWriteOk = true) →
    ∀ p ∈ rows.zip (batchResults cfg envOf rows i st), p.2 = none →
    ∃ e, alistFind (keyOf p.1.text) (batchLoop cfg envOf rows i st).2.2.2.1.dlq =
      some e ∧ e.attempts = 1 ∧ e.text = normText p.1.text := by
  intro rows
  induction rows with
  | nil => intro i st _ _ _ p hp; simp at hp
  | cons row rest ih =>
    intro i st hkeys hfresh hdw p hp hnone
    rw [List.map_cons, List.nodup_cons] at hkeys
    rw [batchResults_cons, List.zip_cons_cons] at hp
    have hkne : ∀ r ∈ rest, keyOf row.text ≠ keyOf r.text := by
      intro r hr hc
      exact hkeys.1 (List.mem_map.mpr ⟨r, hr, hc.symm⟩)
    rcases List.mem_cons.mp hp with h1 | h2
    · subst h1
      have hg : (generate_embedding cfg (envOf i) st row.text).1 = none := hnone
      obtain ⟨err, herr⟩ := generate_embedding_none_dlq cfg (envOf i) st row.text
        hatt hg (hdw i)
      rw [batchLoop_state,
        batchLoop_dlq_frame cfg envOf rest (i + 1) _ (keyOf row.text) hkne, herr,
        dlqUpsert_absent (hfresh row (List.mem_cons_self _ _)), alistFind, if_pos rfl]
      exact ⟨_, rfl, rfl, rfl⟩
    · rw [batchLoop_state]
      refine ih (i + 1) _ hkeys.2 ?_ hdw p h2 hnone
      intro r hr
      rw [generate_embedding_dlq_frame cfg (envOf i) st row.text (keyOf r.text)
        (fun hc => hkne r hr hc.symm)]
      exact hfresh r (List.mem_cons_of_mem _ hr)

/-! ## C2: how the batch treats the empty sentinel -/

/-- C2 counterexample: a whitespace-only work item's embed call returns the
empty sentinel `some []`, yet `vectorize_batch` hands it to the Sink Writers
(with an empty vector) and marks it processed — the claim says it is
partitioned as a failure. -/
theorem empty_sentinel_cex :
    ((vectorize_batch CONFIG_DEFAULTS (fun _ => env0) 10 [itemEmpty2] st0).handed.map
      (fun vr => vr.rowid)) = [7] ∧
    (vectorize_batch CONFIG_DEFAULTS (fun _ => env0) 10 [itemEmpty2] st0).succIds = [7] ∧
    (vectorize_batch CONFIG_DEFAULTS (fun _ => env0) 10 [itemEmpty2] st0).queue =
      [{ itemEmpty2 with processed := true }] ∧
    (generate_embedding CONFIG_DEFAULTS env0 st0 itemEmpty2.text).1 = some [] := by
  exact ⟨by decide, by decide, by decide, by decide⟩

/-- C2 (amended): `vectorize_batch` partitions only on `None`: an item whose
embed call returned the empty sentinel `some []` is treated as a success — a
vector record with the empty vector is included in the batch handed to the
Sink Writers, and the item's identifier is marked processed. -/
theorem empty_sentinel_amended (cfg : Config) (envOf : Nat → EmbedEnv) (bs : Nat)
    (queue : List WorkItem) (st : EngineState) :
    ∀ p ∈ (batchRows bs queue).zip
      (batchResults cfg envOf (batchRows bs queue) 0 st), p.2 = some [] →
    (∃ vr ∈ (vectorize_batch cfg envOf bs queue st).handed,
      vr.rowid = p.1.rowid ∧ vr.vector = ([] : List Int)) ∧
    p.1.rowid ∈ (vectorize_batch cfg envOf bs queue st).succIds ∧
    (∀ q ∈ (vectorize_batch cfg envOf bs queue st).queue,
      q.rowid = p.1.rowid → q.processed = true) := by
  intro p hp hv
  have hmem : p.1.rowid ∈ (batchLoop cfg envOf (batchRows bs queue) 0 st).2.1 := by
    rw [batchLoop_ids]
    exact List.mem_map.mpr ⟨p, List.mem_filter.mpr ⟨hp, by simp [hv]⟩, rfl⟩
  refine ⟨?_, ?_, ?_⟩
  · rw [vectorize_batch_handed]
    obtain ⟨vr, hm, h1, h2, _⟩ :=
      batchLoop_handed cfg envOf (batchRows bs queue) 0 st p hp [] hv
    exact ⟨vr, hm, h1, h2⟩
  · rw [vectorize_batch_succIds]
    exact hmem
  · intro q hq hrid
    rw [vectorize_batch_queue] at hq
    obtain ⟨q0, hq0, hfq⟩ := List.mem_map.mp hq
    by_cases hc : q0.rowid ∈ (batchLoop cfg envOf (batchRows bs queue) 0 st).2.1
    · rw [if_pos hc] at hfq
      rw [← hfq]
    · rw [if_neg hc] at hfq
      subst hfq
      exact absurd (hrid ▸ hmem) hc

/-- Witness for C2 (amended) on a batch of one whitespace-only item. -/
theorem empty_sentinel_amended_witness :
    ((itemEmpty2, (some [] : Option (List Int))) ∈
      (batchRows 10 [itemEmpty2]).zip
        (batchResults CONFIG_DEFAULTS (fun _ => env0) (batchRows 10 [itemEmpty2]) 0 st0)) ∧
    itemEmpty2.rowid ∈
      (vectorize_batch CONFIG_DEFAULTS (fun _ => env0) 10 [itemEmpty2] st0).succIds :=
  ⟨by decide,
    (empty_sentinel_amended CONFIG_DEFAULTS (fun _ => env0) 10 [itemEmpty2] st0
      (itemEmpty2, some []) (by decide) rfl).2.1⟩

/-! ## C1: the partial-failure contract of a batch -/

/-- C1 counterexample: a whitespace-only item is marked processed by
`vectorize_batch` although its embed call returned the empty sentinel
`some []` — which is not a (nonempty) vector — so "exactly the items whose
embed call returned a vector are marked processed" fails as stated. -/
theorem batch_contract_cex :
    (vectorize_batch CONFIG_DEFAULTS (fun _ => env0) 10 [itemEmpty] st0).succIds =
      [1] ∧
    (vectorize_batch CONFIG_DEFAULTS (fun _ => env0) 10 [itemEmpty] st0).queue =
      [{ itemEmpty with processed := true }] ∧
    (generate_embedding CONFIG_DEFAULTS env0 st0 itemEmpty.text).1 = some [] ∧
    ∀ w : List Int,
      (generate_embedding CONFIG_DEFAULTS env0 st0 itemEmpty.text).1 = some w →
        w = [] := by
  refine ⟨by decide, by decide, by decide, ?_⟩
  intro w hw
  have h : (generate_embedding CONFIG_DEFAULTS env0 st0 itemEmpty.text).1 =
      some [] := by decide
  rw [h] at hw
  exact (Option.some.inj hw).symm

/-- C1 (amended): for every batch, exactly the work items whose embed call did
NOT return permanentFailure (that is, returned a vector or the empty sentinel)
have their identifiers marked processed; every item whose embed call returned
permanentFailure remains unprocessed, and — on its first permanent failure
(key absent from the DLQ, keys pairwise distinct in the batch, DLQ writes
healthy) — a Dead Letter entry exists for its normalized text with
`attempts = 1`. -/
theorem batch_contract_amended (cfg : Config) (envOf : Nat → EmbedEnv) (bs : Nat)
    (queue : List WorkItem) (st : EngineState)
    (hatt : 1 ≤ cfg.retry_policy.attempts)
    (hnodup : (queue.map fun q => q.rowid).Nodup)
    (hkeys : ((batchRows bs queue).map fun r => keyOf r.text).Nodup)
    (hfresh : ∀ r ∈ batchRows bs queue, alistFind (keyOf r.text) st.dlq = none)
    (hdw : ∀ j, (envOf j).dlqWriteOk = true) :
    (vectorize_batch cfg envOf bs queue st).succIds =
      (((batchRows bs queue).zip
        (batchResults cfg envOf (batchRows bs queue) 0 st)).filter
          (fun p => p.2.isSome)).map (fun p => p.1.rowid) ∧
    ∀ p ∈ (batchRows bs queue).zip
        (batchResults cfg envOf (batchRows bs queue) 0 st),
      (p.2 ≠ none →
        ∀ q ∈ (vectorize_batch cfg envOf bs queue st).queue,
          q.rowid = p.1.rowid → q.processed = true) ∧
      (p.2 = none →
        (∀ q ∈ (vectorize_batch cfg envOf bs queue st).queue,
          q.rowid = p.1.rowid → q.processed = false) ∧
        ∃ e, alistFind (keyOf p.1.text)
            (vectorize_batch cfg envOf bs queue st).engine.dlq = some e ∧
          e.attempts = 1 ∧ e.text = normText p.1.text) := by
  refine ⟨by rw [vectorize_batch_succIds, batchLoop_ids], ?_⟩
  intro p hp
  constructor
  · intro hne q hq hrid
    have hsome : p.2.isSome = true := by
      cases hv : p.2 with
      | none => exact absurd hv hne
      | some v => rfl
    have hmem : p.1.rowid ∈ (batchLoop cfg envOf (batchRows bs queue) 0 st).2.1 := by
      rw [batchLoop_ids]
      exact List.mem_map.mpr ⟨p, List.mem_filter.mpr ⟨hp, hsome⟩, rfl⟩
    rw [vectorize_batch_queue] at hq
    obtain ⟨q0, hq0, hfq⟩ := List.mem_map.mp hq
    by_cases hc : q0.rowid ∈ (batchLoop cfg envOf (batchRows bs queue) 0 st).2.1
    · rw [if_pos hc] at hfq
      rw [← hfq]
    · rw [if_neg hc] at hfq
      subst hfq
      exact absurd (hrid ▸ hmem) hc
  · intro hnone
    have hp1mem : p.1 ∈ batchRows bs queue := (List.of_mem_zip hp).1
    refine ⟨?_, ?_⟩
    · intro q hq hrid
      rw [vectorize_batch_queue] at hq
      obtain ⟨q0, hq0, hfq⟩ := List.mem_map.mp hq
      have hqr : q.rowid = q0.rowid := by
        by_cases hc : q0.rowid ∈ (batchLoop cfg envOf (batchRows bs queue) 0 st).2.1
        · rw [if_pos hc] at hfq; rw [← hfq]
        · rw [if_neg hc] at hfq; rw [← hfq]
      have hq0rid : q0.rowid = p.1.rowid := by rw [← hqr]; exact hrid
      have heq : q0 = p.1 :=
        List.inj_on_of_nodup_map hnodup hq0 ((batchRows_mem hp1mem).1) hq0rid
      have hnot : q0.rowid ∉ (batchLoop cfg envOf (batchRows bs queue) 0 st).2.1 := by
        rw [heq, batchLoop_ids]
        intro hm
        obtain ⟨p', hp'f, hp'e⟩ := List.mem_map.mp hm
        have hp'mem := List.mem_filter.mp hp'f
        have hpp : p' = p :=
          zip_rowid_unique (batchRows bs queue) _ (batchRows_nodup hnodup)
            p' hp'mem.1 p hp hp'e
        have hs := hp'mem.2
        rw [hpp, hnone] at hs
        exact absurd hs (by simp)
      rw [if_neg hnot] at hfq
      rw [← hfq, heq]
      exact (batchRows_mem hp1mem).2
    · rw [vectorize_batch_engine]
      exact batchLoop_dlq cfg envOf hatt (batchRows bs queue) 0 st hkeys hfresh
        hdw p hp hnone

/-- Witness for C1 (amended): item `itemA` embeds successfully, item `itemB`
permanently fails; after the batch a Dead Letter entry for `itemB`'s text
exists with `attempts = 1`. -/
theorem batch_contract_amended_witness :
    (1 ≤ CONFIG_DEFAULTS.retry_policy.attempts ∧
      (([itemA, itemB].map fun q => q.rowid).Nodup) ∧
      (((batchRows 10 [itemA, itemB]).map fun r => keyOf r.text).Nodup)) ∧
    ∃ e, alistFind (keyOf itemB.text)
        (vectorize_batch CONFIG_DEFAULTS envOfAB 10 [itemA, itemB] st0).engine.dlq =
      some e ∧ e.attempts = 1 ∧ e.text = normText itemB.text := by
  refine ⟨⟨by decide, by decide, by decide⟩, ?_⟩
  have h := batch_contract_amended CONFIG_DEFAULTS envOfAB 10 [itemA, itemB] st0
    (by decide) (by decide) (by decide) (fun r hr => rfl)
    (fun j => by cases j with | zero => rfl | succ n => rfl)
  exact ((h.2 (itemB, none) (by decide)).2 rfl).2

/-! ## C9: the queue frame property -/

/-- C9: `vectorize_batch` never deletes a work-item row (the queue keeps its
length), leaves every field other than `processed` unchanged, and the only
`processed` change is `false` to `true`, for identifiers in the success list.
`get_queue_size` and `generate_embedding` take no queue argument at all, so
the batch update below is the core's only queue mutation. -/
theorem queue_frame (cfg : Config) (envOf : Nat → EmbedEnv) (bs : Nat)
    (queue : List WorkItem) (st : EngineState) :
    (vectorize_batch cfg envOf bs queue st).queue.length = queue.length ∧
    ∀ p ∈ queue.zip (vectorize_batch cfg envOf bs queue st).queue,
      (p.2.rowid = p.1.rowid ∧ p.2.bubble_id = p.1.bubble_id ∧
        p.2.composer_id = p.1.composer_id ∧
        p.2.created_at_utc = p.1.created_at_utc ∧ p.2.text = p.1.text ∧
        p.2.bubble_type_name = p.1.bubble_type_name) ∧
      (p.2.processed ≠ p.1.processed →
        p.1.processed = false ∧ p.2.processed = true ∧
        p.1.rowid ∈ (vectorize_batch cfg envOf bs queue st).succIds) := by
  constructor
  · rw [vectorize_batch_queue]
    exact List.length_map _ _
  · intro p hp
    rw [vectorize_batch_queue] at hp
    have h2 := zip_map_self _ queue p hp
    by_cases hc : p.1.rowid ∈ (batchLoop cfg envOf (batchRows bs queue) 0 st).2.1
    · rw [if_pos hc] at h2
      refine ⟨by rw [h2]; exact ⟨rfl, rfl, rfl, rfl, rfl, rfl⟩, ?_⟩
      intro hne
      rw [h2] at hne
      refine ⟨?_, by rw [h2], by rw [vectorize_batch_succIds]; exact hc⟩
      cases hpr : p.1.processed
      · rfl
      · rw [hpr] at hne
        exact absurd rfl hne
    · rw [if_neg hc] at h2
      rw [h2]
      exact ⟨⟨rfl, rfl, rfl, rfl, rfl, rfl⟩, fun hne => absurd rfl hne⟩

/-- Witness for C9 on a one-item queue whose item embeds successfully. -/
theorem queue_frame_witness :
    ((itemA, ({ itemA with processed := true } : WorkItem)) ∈
      [itemA].zip
        (vectorize_batch CONFIG_DEFAULTS (fun _ => envA) 10 [itemA] st0).queue) ∧
    ({ itemA with processed := true } : WorkItem).rowid = itemA.rowid ∧
    itemA.processed = false ∧
    itemA.rowid ∈
      (vectorize_batch CONFIG_DEFAULTS (fun _ => envA) 10 [itemA] st0).succIds := by
  have hp : ((itemA, ({ itemA with processed := true } : WorkItem)) ∈
      [itemA].zip
        (vectorize_batch CONFIG_DEFAULTS (fun _ => envA) 10 [itemA] st0).queue) := by
    decide
  have h2 := (queue_frame CONFIG_DEFAULTS (fun _ => envA) 10 [itemA] st0).2 _ hp
  exact ⟨hp, h2.1.1, (h2.2 (by decide)).1, (h2.2 (by decide)).2.2⟩

/-- Witness for C7 (amended): with `envC7` (healthy table initialization and
endpoint, broken cache reads and writes) the full call returns normally, the
request proceeds as a cache miss, and the retry loop still returns its
vector. -/
theorem cache_degradation_witness :
    envC7.ensureTablesOk = true ∧
    generate_embedding_call CONFIG_DEFAULTS envC7 st0 "hi".toList =
      Except.ok (generate_embedding CONFIG_DEFAULTS envC7 st0 "hi".toList) ∧
    envC7.cacheReadOk = false ∧
    (generate_embedding CONFIG_DEFAULTS envC7 st0 "hi".toList).1 =
      (generate_embedding CONFIG_DEFAULTS { envC7 with cacheReadOk := true }
        { st0 with cache := [] } "hi".toList).1 ∧
    envC7.cacheWriteOk = false ∧
    retryLoop CONFIG_DEFAULTS envC7 "k".toList "t".toList 3 0 st0 =
      (some [4],
        { st0 with cb_failures := 0,
                   embeddings_generated := st0.embeddings_generated + 1 },
        [Ev.inferCall "t".toList]) :=
  ⟨rfl, (cache_degradation CONFIG_DEFAULTS envC7 st0 "hi".toList).1 rfl, rfl,
    ((cache_degradation CONFIG_DEFAULTS envC7 st0 "hi".toList).2.2.1 rfl).1, rfl,
    (cache_degradation CONFIG_DEFAULTS envC7 st0 "hi".toList).2.2.2
      "k".toList "t".toList 2 0 st0 [4] rfl (by decide)⟩

end S03
